import Mathlib

/-!
Verification of the task-analyzer prioritization core
(`backend/task_analyzer/tasks/scoring.py`).

Shallow embedding conventions:
* Python `float` values are modelled as `Rat` (exact rational arithmetic;
  non-finite floats such as `nan`/`inf` are outside the model).
* Calendar dates are modelled as rata-die day numbers (`Int`, days since
  1970-01-01); `date.today()` is threaded through as an explicit `today`
  parameter, and subtraction of day numbers equals `(d1 - d2).days` in Python.
* Python `dict`s are modelled as insertion-ordered association lists; Python
  `set`s of ints as duplicate-free lists (membership is all that matters).
* Fallible Python code (statements that can raise) is modelled in
  `Except String`; the error message text is not part of the model.
* Python's stable sort with a key function is modelled by a stable insertion
  sort parameterised by the strict comparison of the keys.
* String algorithms are written over `List Char` so that every definition
  evaluates by kernel reduction.
-/

set_option allowUnsafeReducibility true
attribute [semireducible] Rat.add Rat.sub Rat.mul Rat.inv Rat.ofScientific
set_option maxRecDepth 40000

namespace Scoring

/-- Python `s or d` for strings: the empty string is falsy. -/
def pyOr (s d : String) : String := if s = "" then d else s

/-- Lowercasing (Python `str.lower` on the ASCII strings used here). -/
def strToLower (s : String) : String := ⟨s.data.map Char.toLower⟩

/-- Lookup in an association list (Python `m[k]` / `m.get(k)`):
first matching entry. -/
def alookup {β : Type} : List (Int × β) → Int → Option β
  | [], _ => none
  | p :: rest, k => if p.1 == k then some p.2 else alookup rest k

/-- Key membership in an association list (Python `k in m`). -/
def amem {β : Type} (m : List (Int × β)) (k : Int) : Bool :=
  m.any (fun p => p.1 == k)

/-- Python `m.get(k, d)`. -/
def alookupD {β : Type} (m : List (Int × β)) (k : Int) (d : β) : β :=
  (alookup m k).getD d

/-- Insertion-ordered store `m[k] = v`: update in place if the key exists,
append otherwise (Python dict assignment). -/
def aset {β : Type} (m : List (Int × β)) (k : Int) (v : β) : List (Int × β) :=
  if amem m k then m.map (fun p => if p.1 == k then (k, v) else p)
  else m ++ [(k, v)]

/-- Stable insertion into a sorted list: `x` goes before the first element it
is not strictly greater than, so equal keys keep their original order. -/
def insertS {α : Type} (lt : α → α → Bool) (x : α) : List α → List α
  | [] => [x]
  | y :: ys => if lt y x then y :: insertS lt x ys else x :: y :: ys

/-- Stable sort (model of Python `list.sort(key=...)` / `sorted(...)`,
which is stable) with strict comparison `lt` on elements. -/
def sortS {α : Type} (lt : α → α → Bool) : List α → List α
  | [] => []
  | x :: xs => insertS lt x (sortS lt xs)

/-- Decidable equality for `Except String` results. -/
instance {α : Type} [DecidableEq α] : DecidableEq (Except String α) := fun x y =>
  match x, y with
  | .ok a, .ok b =>
    if h : a = b then isTrue (by rw [h]) else isFalse (by intro hh; cases hh; exact h rfl)
  | .error a, .error b =>
    if h : a = b then isTrue (by rw [h]) else isFalse (by intro hh; cases hh; exact h rfl)
  | .ok _, .error _ => isFalse (by intro hh; cases hh)
  | .error _, .ok _ => isFalse (by intro hh; cases hh)

/-! ## Character-list string utilities -/

/-- Split a character list at every occurrence of the separator `c`
(Python `s.split(c)` / `String.splitOn` for a one-character separator). -/
def splitOnC (c : Char) : List Char → List (List Char)
  | [] => [[]]
  | ch :: rest =>
    let r := splitOnC c rest
    if ch == c then [] :: r
    else
      match r with
      | [] => [[ch]]
      | h :: t => (ch :: h) :: t

/-- Strip leading and trailing whitespace (Python `str.strip`). -/
def trimL (l : List Char) : List Char :=
  ((l.dropWhile Char.isWhitespace).reverse.dropWhile Char.isWhitespace).reverse

/-- Nonempty all-digit test (Python `str.isdigit` on the ASCII strings this
code deals with). -/
def digitsOnly (l : List Char) : Bool := !l.isEmpty && l.all Char.isDigit

/-- Numeric value of a digit list (0 for the empty list). -/
def digitsVal (l : List Char) : Int :=
  ((l.foldl (fun (acc : Nat) c => acc * 10 + (c.toNat - 48)) 0 : Nat) : Int)

/-! ## Dates

`datetime.date` values are mapped to rata-die day numbers via the standard
civil-calendar conversion; the ordering of day numbers agrees with the
ordering of dates, and differences agree with `timedelta.days`. -/

/-- Gregorian leap-year test. -/
def isLeap (y : Int) : Bool := y % 4 == 0 && (y % 100 != 0 || y % 400 == 0)

/-- Length of month `m` of year `y` (as validated by `datetime.date`). -/
def daysInMonth (y m : Int) : Int :=
  if m = 2 then (if isLeap y then 29 else 28)
  else if m = 4 ∨ m = 6 ∨ m = 9 ∨ m = 11 then 30
  else 31

/-- Day number of the civil date `y-m-d` (days since 1970-01-01), standard
"days from civil" conversion; all intermediate quantities are non-negative
for the years `datetime.date` accepts (1..9999). -/
def toDays (y m d : Int) : Int :=
  let y1 := if m ≤ 2 then y - 1 else y
  let era := y1 / 400
  let yoe := y1 - era * 400
  let mp := (m + 9) % 12
  let doy := (153 * mp + 2) / 5 + d - 1
  let doe := yoe * 365 + yoe / 4 - yoe / 100 + doy
  era * 146097 + doe - 719468

/-- Model of `datetime.strptime(s, "%Y-%m-%d").date()`: a 4-digit year, 1-2
digit month and day separated by dashes, validated as a real calendar date
(year at least 1); returns the day number. -/
def parseYMD (s : String) : Option Int :=
  match splitOnC '-' s.data with
  | [ys, ms, ds] =>
    if ys.length == 4 && digitsOnly ys && digitsOnly ms
        && (ms.length == 1 || ms.length == 2) && digitsOnly ds
        && (ds.length == 1 || ds.length == 2) then
      let y := digitsVal ys
      let m := digitsVal ms
      let d := digitsVal ds
      if 1 ≤ y && 1 ≤ m && m ≤ 12 && 1 ≤ d && d ≤ daysInMonth y m then
        some (toDays y m d)
      else none
    else none
  | _ => none

/-- Source `parse_date`: `None`/empty → absent, unparseable → absent. -/
def parse_date (value : Option String) : Option Int :=
  match value with
  | none => none
  | some s => if s = "" then none else parseYMD s

/-- Python `date.max` = 9999-12-31 as a day number. -/
def date_max : Int := toDays 9999 12 31

/-- Source `days_until`: days between `today` and the date. -/
def days_until (today : Int) : Option Int → Option Int
  | none => none
  | some d => some (d - today)

/-! ## Python numeric conversions -/

/-- Python `int(q)` on a numeric value: truncation toward zero. -/
def truncRat (q : Rat) : Int := Int.tdiv q.num (q.den : Int)

/-- Floor of a rational as an integer (used by the rounding model). -/
def ratFloor (q : Rat) : Int := Int.fdiv q.num (q.den : Int)

/-- Round to the nearest integer, ties to even (Python `round`). -/
def roundHalfEven (q : Rat) : Int :=
  let f := ratFloor q
  let r := q - (f : Rat)
  if r < 1/2 then f else if 1/2 < r then f + 1
  else if f % 2 = 0 then f else f + 1

/-- Model of Python `round(x, 2)` at the rational level. -/
def pyRound2 (q : Rat) : Rat := ((roundHalfEven (q * 100) : Int) : Rat) / 100

/-- Model of the f-string format `{x:.2f}`. -/
def fmt2 (q : Rat) : String :=
  let n := roundHalfEven (q * 100)
  let sg := if n < 0 then "-" else ""
  let a := n.natAbs
  let f := a % 100
  sg ++ toString (a / 100) ++ "." ++ (if f < 10 then "0" else "") ++ toString f

/-- Deterministic stand-in for Python float `repr` used inside explanation
text (the exact text of `repr(float)` is outside the rational model). -/
def fmtFloat (q : Rat) : String :=
  if q.den == 1 then toString q.num ++ ".0"
  else toString q.num ++ "/" ++ toString q.den

/-- Python `str` of an optional int (`str(None) = "None"`). -/
def fmtOptInt : Option Int → String
  | none => "None"
  | some d => toString d

/-! ## Task model -/

/-- Source dataclass `Task`. -/
structure Task where
  id : Int
  title : String
  due_date : Option String
  estimated_hours : Rat
  importance : Int
  dependencies : List Int
deriving DecidableEq, Inhabited

/-- A dynamically-typed numeric-ish field of a raw record: a number
(int or float) or a string. -/
inductive PyNum where
  | num (q : Rat)
  | str (s : String)
deriving DecidableEq

/-- The `dependencies` field of a raw record: a list (of numbers or
strings) or a delimited string. -/
inductive PyDeps where
  | list (l : List PyNum)
  | str (s : String)
deriving DecidableEq

/-- One raw input record (`Dict[str, Any]`), with each field either absent
(`None`/missing key) or present with one of the dynamic types the
corresponding source expression can consume. -/
structure RawTask where
  title : Option String
  due_date : Option String
  estimated_hours : Option PyNum
  importance : Option PyNum
  dependencies : Option PyDeps
deriving DecidableEq, Inhabited

/-- Python truthiness of an optional number-or-string value. -/
def pyTruthy : Option PyNum → Bool
  | none => false
  | some (.num q) => q != 0
  | some (.str s) => s != ""

/-- Optional sign followed by digits (the shape `int()` and float exponents
accept), as an integer. -/
def parseSignedDigits (l : List Char) : Option Int :=
  match l with
  | '-' :: core => if digitsOnly core then some (-(digitsVal core)) else none
  | '+' :: core => if digitsOnly core then some (digitsVal core) else none
  | core => if digitsOnly core then some (digitsVal core) else none

/-- Model of Python `int(s)` on a string: surrounding whitespace allowed,
optional sign, decimal digits; anything else raises. -/
def parsePyInt (s : String) : Option Int := parseSignedDigits (trimL s.data)

/-- Digit run with optional single dot: `"12"`, `"12."`, `".5"`, `"1.5"`. -/
def parseDecCore (t : List Char) : Option Rat :=
  match splitOnC '.' t with
  | [a] => if digitsOnly a then some ((digitsVal a : Int) : Rat) else none
  | [a, b] =>
    if (!a.isEmpty || !b.isEmpty) && (a.isEmpty || digitsOnly a)
        && (b.isEmpty || digitsOnly b) then
      some ((digitsVal a : Rat) + (digitsVal b : Rat) / ((10 : Rat) ^ b.length))
    else none
  | _ => none

/-- Model of Python `float(s)` on a string: surrounding whitespace, optional
sign, decimal mantissa, optional exponent; anything else raises (non-finite
literals are outside the model). -/
def parsePyFloat (s : String) : Option Rat :=
  let t := (trimL s.data).map Char.toLower
  let sg : Rat := if t.headD ' ' == '-' then -1 else 1
  let u := if t.headD ' ' == '-' || t.headD ' ' == '+' then t.drop 1 else t
  match splitOnC 'e' u with
  | [m] => (parseDecCore m).map (fun q => sg * q)
  | [m, ex] =>
    match parseDecCore m, parseSignedDigits ex with
    | some q, some e => some (sg * q * (10 : Rat) ^ e)
    | _, _ => none
  | _ => none

/-- Source `float(v or 0.0)` (raises on a non-numeric string). -/
def pyFloatOf (v : Option PyNum) : Except String Rat :=
  if pyTruthy v then
    match v with
    | some (.num q) => .ok q
    | some (.str s) =>
      match parsePyFloat s with
      | some q => .ok q
      | none => .error "ValueError: could not convert string to float"
    | none => .ok 0
  else .ok 0

/-- Source `int(v or dflt)` (raises on a non-numeric string). -/
def pyIntOfD (dflt : Int) (v : Option PyNum) : Except String Int :=
  if pyTruthy v then
    match v with
    | some (.num q) => .ok (truncRat q)
    | some (.str s) =>
      match parsePyInt s with
      | some n => .ok n
      | none => .error "ValueError: invalid literal for int"
    | none => .ok dflt
  else .ok dflt

/-- Python `int(x)` on one element of a dependencies list. -/
def pyToIntElem : PyNum → Except String Int
  | .num q => .ok (truncRat q)
  | .str s =>
    match parsePyInt s with
    | some n => .ok n
    | none => .error "ValueError: invalid literal for int"

/-- Truthiness of the raw `dependencies` value. -/
def pyDepsTruthy : Option PyDeps → Bool
  | none => false
  | some (.list l) => !l.isEmpty
  | some (.str s) => s != ""

/-- Source dependency normalization: `deps = item.get("dependencies") or []`,
a delimited string keeps only tokens whose stripped form is all digits, and
finally `list(map(int, deps))` (which raises on a non-numeric list element). -/
def buildDeps (v : Option PyDeps) : Except String (List Int) :=
  if pyDepsTruthy v then
    match v with
    | some (.str s) =>
      .ok ((splitOnC ',' s.data).filterMap
        (fun x => if digitsOnly (trimL x) then some (digitsVal (trimL x)) else none))
    | some (.list l) => l.mapM pyToIntElem
    | none => .ok []
  else .ok []

/-- Construction of one `Task` from a raw record at 1-based index `idx`. -/
def buildOne (idx : Int) (item : RawTask) : Except String Task := do
  let eh ← pyFloatOf item.estimated_hours
  let imp ← pyIntOfD 1 item.importance
  let deps ← buildDeps item.dependencies
  let ttl :=
    match item.title with
    | some t => if t = "" then "Task " ++ toString idx else t
    | none => "Task " ++ toString idx
  .ok ⟨idx, ttl, item.due_date, eh, imp, deps⟩

/-- Recursive worker for `build_tasks`. -/
def buildTasksGo (idx : Int) : List RawTask → Except String (List (Int × Task))
  | [] => .ok []
  | item :: rest => do
    let t ← buildOne idx item
    let tl ← buildTasksGo (idx + 1) rest
    .ok ((idx, t) :: tl)

/-- Source `build_tasks`: ids are assigned by 1-based input position; any
exception raised while normalizing a field aborts the whole build. -/
def build_tasks (raw_tasks : List RawTask) : Except String (List (Int × Task)) :=
  buildTasksGo 1 raw_tasks

/-! ## Scoring subscores -/

/-- Source constant `HOURS_PER_DAY = 10.0`. -/
def HOURS_PER_DAY : Rat := 10

/-- Source `urgency_score`. -/
def urgency_score : Option Int → Rat
  | none => 0.2
  | some days =>
    if days ≤ 0 then
      let overdue := max days (-7)
      1.0 + ((-overdue : Int) : Rat) * 0.08
    else if days ≥ 30 then 0.1
    else max 0.2 (1.0 - (days : Rat) / 30)

/-- Source `importance_score`. -/
def importance_score (importance : Int) : Rat :=
  let clamped := max 1 (min 10 importance)
  (clamped : Rat) / 10

/-- Source `effort_score`. -/
def effort_score (hours : Rat) : Rat :=
  if hours ≤ 0 then 1 else 1 / (1 + min hours 12)

/-! ## Graph analyzer -/

/-- Colors of the three-state DFS marking (absence from the map is
"unseen"). -/
inductive VState where
  | visiting
  | done
deriving DecidableEq

/-- The mutable state of `detect_cycles`: the coloring dict and the
accumulated cycle-member set. -/
structure DfsSt where
  state : List (Int × VState)
  cycle_nodes : List Int
deriving DecidableEq

/-- Set-union accumulation `cycle_nodes.update(l)` keeping first-insertion
order. -/
def unionL (s : List Int) (l : List Int) : List Int :=
  l.foldl (fun acc x => if acc.contains x then acc else acc ++ [x]) s

/-- Python `stack.index(tid)` (first occurrence). -/
def indexOfI (l : List Int) (x : Int) : Nat := l.findIdx (fun y => y == x)

/-- The recursive `dfs` worker of `detect_cycles`, with explicit fuel for
termination; the fuel bounds the depth of nested calls and
`tasks.length + 1` always suffices, since each nested level marks a distinct
previously-unseen key as visiting. -/
def dfsF (tasks : List (Int × Task)) : Nat → Int → List Int → DfsSt → DfsSt
  | 0, _, _, st => st
  | fuel + 1, tid, stack, st =>
    match alookup st.state tid with
    | some .visiting => ⟨st.state, unionL st.cycle_nodes (stack.drop (indexOfI stack tid))⟩
    | some .done => st
    | none =>
      let st1 : DfsSt := ⟨aset st.state tid .visiting, st.cycle_nodes⟩
      let st2 := ((alookupD tasks tid default).dependencies).foldl
        (fun acc dep => if amem tasks dep then dfsF tasks fuel dep (stack ++ [tid]) acc else acc)
        st1
      ⟨aset st2.state tid .done, st2.cycle_nodes⟩

/-- Source `detect_cycles`: DFS from every not-yet-seen task id in dict
order, accumulating `cycle_nodes`. -/
def detect_cycles (tasks : List (Int × Task)) : List Int :=
  (tasks.foldl
    (fun st p => if (alookup st.state p.1).isNone then dfsF tasks (tasks.length + 1) p.1 [] st else st)
    ⟨[], []⟩).cycle_nodes

/-- Source `blocked_counts`: start every key at 0, then bump the counter of
each dependency that is a known key. -/
def blocked_counts (tasks : List (Int × Task)) : List (Int × Int) :=
  let init : List (Int × Int) := tasks.map (fun p => (p.1, 0))
  tasks.foldl
    (fun counts p =>
      p.2.dependencies.foldl
        (fun c dep => if amem c dep then aset c dep (alookupD c dep 0 + 1) else c)
        counts)
    init

/-- Source `earliest_dependent_due`: minimum parsed due date over tasks that
list `task_id` as a dependency. -/
def earliest_dependent_due (task_id : Int) (tasks : List (Int × Task)) : Option Int :=
  tasks.foldl
    (fun earliest p =>
      if p.2.dependencies.contains task_id then
        match parse_date p.2.due_date with
        | none => earliest
        | some d =>
          match earliest with
          | none => some d
          | some e => if d < e then some d else earliest
      else earliest)
    none

/-! ## Feasibility scheduler -/

/-- Source `per_task_feasible`. -/
def per_task_feasible (today : Int) (task : Task) : Bool :=
  match parse_date task.due_date with
  | none => true
  | some d =>
    match days_until today (some d) with
    | none => true
    | some du =>
      let days_window := max 0 (du + 1)
      task.estimated_hours ≤ (days_window : Rat) * HOURS_PER_DAY

/-- Source `_latest_finish_hours`. -/
def latest_finish_hours (today : Int) (d : Option Int) : Option Rat :=
  match d with
  | none => none
  | some dd =>
    match days_until today (some dd) with
    | none => none
    | some du => some (((max 0 du : Int) : Rat) * HOURS_PER_DAY)

/-- The enriched per-task entries the feasibility scheduler works on. -/
structure Enriched where
  id : Int
  due : Option Int
  hours : Rat
deriving DecidableEq, Inhabited

/-- Comparison of two present due dates (the only case the sort reaches). -/
def optLtInt : Option Int → Option Int → Bool
  | some a, some b => a < b
  | _, _ => false

/-- Python `d <= earliest_dep_due` on two present dates. -/
def optLeInt : Option Int → Option Int → Bool
  | some a, some b => a ≤ b
  | _, _ => false

/-- The accumulation loop of `compute_feasible_order_if_possible`: walk the
sorted deadline tasks, adding hours; fail as soon as the running total
exceeds the latest-finish capacity. -/
def feasWalk (today : Int) : List Enriched → Rat → Bool
  | [], _ => true
  | e :: rest, cumulative_hours =>
    let cumulative_hours := cumulative_hours + e.hours
    match latest_finish_hours today e.due with
    | some latest_finish =>
      if cumulative_hours > latest_finish then false
      else feasWalk today rest cumulative_hours
    | none => feasWalk today rest cumulative_hours

/-- Source `compute_feasible_order_if_possible`. -/
def compute_feasible_order_if_possible (today : Int) (tasks : List (Int × Task)) :
    Option (List Int) :=
  let enriched := tasks.map
    (fun p => Enriched.mk p.2.id (parse_date p.2.due_date) (max 0 p.2.estimated_hours))
  let with_deadline := enriched.filter (fun e => e.due.isSome)
  let without_deadline := enriched.filter (fun e => e.due.isNone)
  let sorted := sortS (fun a b => optLtInt a.due b.due) with_deadline
  if feasWalk today sorted 0 then
    some (sorted.map (fun e => e.id) ++ without_deadline.map (fun e => e.id))
  else none

/-! ## Scoring engine -/

/-- Source `base_score_and_label`. -/
def base_score_and_label (task : Task) (strategy : String) (du : Option Int) :
    Rat × String :=
  let u := urgency_score du
  let i := importance_score task.importance
  let e := effort_score task.estimated_hours
  let s := strToLower (pyOr strategy "smart_balance")
  let (base, label) :=
    if s = "fastest_wins" then ((0.2 : Rat) * u + 0.2 * i + 0.6 * e, "Fastest Wins")
    else if s = "high_impact" then ((0.1 : Rat) * u + 0.8 * i + 0.1 * e, "High Impact")
    else if s = "deadline_driven" then ((0.85 : Rat) * u + 0.10 * i + 0.05 * e, "Deadline Driven")
    else ((0.35 : Rat) * u + 0.40 * i + 0.25 * e, "Smart Balance")
  let explanation :=
    "Strategy: " ++ label ++ ". Urgency=" ++ fmt2 u ++ " (days until due: "
      ++ fmtOptInt du ++ "). Importance=" ++ fmt2 i ++ " (raw "
      ++ toString task.importance ++ "). EffortScore=" ++ fmt2 e ++ " (hours "
      ++ fmtFloat task.estimated_hours ++ ")."
  (base, explanation)

/-- The guard of the `+0.4` "schedule feasibility" boost inside
`score_task` (source lines 241-242), named so that theorems can refer to
it; the sub-expressions are exactly the ones `score_task` computes. -/
def scheduleBoostCond (today : Int) (task : Task) (blocked : List (Int × Int))
    (strategy : String) (earliest_dep_due : Option Int) : Prop :=
  (strToLower (pyOr strategy "") = "deadline_driven"
      ∨ strToLower (pyOr strategy "") = "smart_balance")
    ∧ alookupD blocked task.id 0 > 0 ∧ (parse_date task.due_date).isSome
    ∧ earliest_dep_due.isSome ∧ optLeInt (parse_date task.due_date) earliest_dep_due

instance (today : Int) (task : Task) (blocked : List (Int × Int)) (strategy : String)
    (earliest_dep_due : Option Int) :
    Decidable (scheduleBoostCond today task blocked strategy earliest_dep_due) := by
  unfold scheduleBoostCond
  infer_instance

/-- Source `score_task`. -/
def score_task (today : Int) (task : Task) (blocked : List (Int × Int))
    (strategy : String) (in_cycle : Bool) (earliest_dep_due : Option Int) :
    Rat × String :=
  let d := parse_date task.due_date
  let du := days_until today d
  let (base, explanation) := base_score_and_label task strategy du
  let blocks : Int := alookupD blocked task.id 0
  let dep_mult : Rat := 1.0
  let dep_note : String := ""
  let (dep_mult, dep_note) :=
    if blocks > 0 then
      (dep_mult + 0.3 * ((min blocks 4 : Int) : Rat),
        " Blocks " ++ toString blocks ++ " other task(s).")
    else (dep_mult, dep_note)
  let (dep_mult, dep_note) :=
    if in_cycle then ((1.0 : Rat), " Dependency cycle detected; dependency bonus ignored.")
    else (dep_mult, dep_note)
  let s := strToLower (pyOr strategy "")
  let base :=
    if s = "deadline_driven" ∨ s = "smart_balance" then
      match du with
      | some ddu =>
        if ddu ≤ 0 then base + 1.0
        else if ddu ≤ 2 then base + 0.6
        else if ddu ≤ 5 then base + 0.3
        else base
      | none => base
    else base
  let (base, dep_note) :=
    if scheduleBoostCond today task blocked strategy earliest_dep_due then
      (base + 0.4, dep_note ++ " Earlier than its dependents; boosted for schedule feasibility.")
    else (base, dep_note)
  let score := max 0 (min (base * dep_mult) 2)
  let explanation := if dep_note ≠ "" then explanation ++ " " ++ dep_note else explanation
  (score, explanation)

/-- Source `time_status`. -/
def time_status : Option Int → String
  | none => "future"
  | some du => if du < 0 then "overdue" else if du = 0 then "today" else "future"

/-- Source `overdue_today_priority`. -/
def overdue_today_priority (today : Int) (tid : Int) (tasks : List (Int × Task))
    (blocked : List (Int × Int)) : Int × Int :=
  let t := alookupD tasks tid default
  let du := days_until today (parse_date t.due_date)
  let status := time_status du
  let has_deps := alookupD blocked tid 0 > 0
  let importance := t.importance
  let special : Int :=
    if status = "overdue" ∧ has_deps then 0
    else if status = "today" then 1
    else if status = "overdue" then 2
    else 3
  let bias : Int :=
    if status = "overdue" ∧ ¬has_deps then
      (if importance ≥ 9 then 0 else if importance ≥ 6 then 1 else 2)
    else if status = "today" then
      (if importance ≥ 5 then 0 else 1)
    else 2
  (special, bias)

/-! ## Prioritizer -/

/-- One annotated output record of `prioritize`. -/
structure Record where
  id : Int
  title : String
  due_date : Option String
  estimated_hours : Rat
  importance : Int
  dependencies : List Int
  score : Rat
  explanation : String
deriving DecidableEq, Inhabited

/-- The walk of `build_output_from_order` carrying the decreasing `current`
score. -/
def buildOutGo (today : Int) (tasks : List (Int × Task)) (strategy : String)
    (step : Rat) : List Int → Rat → List Record
  | [], _ => []
  | tid :: rest, current =>
    let t := alookupD tasks tid default
    let du := days_until today (parse_date t.due_date)
    let (_, expl) := base_score_and_label t strategy du
    ⟨t.id, t.title, t.due_date, t.estimated_hours, t.importance, t.dependencies,
        pyRound2 current,
        expl ++ " Ordered by feasibility-aware schedule (can finish all tasks)."⟩
      :: buildOutGo today tasks strategy step rest (max 0 (current - step))

/-- Source `build_output_from_order` (closure inside `prioritize`). -/
def build_output_from_order (today : Int) (tasks : List (Int × Task))
    (strategy : String) (order_ids : List Int) : List Record :=
  let step : Rat := 2 / ((max 1 order_ids.length : Nat) : Rat)
  buildOutGo today tasks strategy step order_ids 2.0

/-- Generic association-list helpers over an arbitrary key type, used for
the due-date buckets of the feasible path. -/
def bmem {κ β : Type} [BEq κ] (m : List (κ × β)) (k : κ) : Bool :=
  m.any (fun p => p.1 == k)

/-- Lookup for bucket maps: first matching entry. -/
def blookup {κ β : Type} [BEq κ] : List (κ × β) → κ → Option β
  | [], _ => none
  | p :: rest, k => if p.1 == k then some p.2 else blookup rest k

/-- Python `buckets.setdefault(key, []).append(tid)`. -/
def bucketAdd (b : List (Option String × List Int)) (k : Option String) (tid : Int) :
    List (Option String × List Int) :=
  if bmem b k then b.map (fun p => if p.1 == k then (p.1, p.2 ++ [tid]) else p)
  else b ++ [(k, [tid])]

/-- The due-date buckets of the feasible path, keyed by the raw `due_date`
string in first-appearance order. -/
def mkBuckets (tasks : List (Int × Task)) (forder : List Int) :
    List (Option String × List Int) :=
  forder.foldl (fun b tid => bucketAdd b (alookupD tasks tid default).due_date tid) []

/-- Lexicographic strict comparison of pairs from comparisons of the
components. -/
def ltPair {α β : Type} (ltA : α → α → Bool) (eqA : α → α → Bool)
    (ltB : β → β → Bool) : (α × β) → (α × β) → Bool :=
  fun x y => ltA x.1 y.1 || (eqA x.1 y.1 && ltB x.2 y.2)

/-- Strict `<` on `Int` as a Bool. -/
def intLt (a b : Int) : Bool := decide (a < b)

/-- Equality on `Int` as a Bool. -/
def intEq (a b : Int) : Bool := a == b

/-- Strict `<` on `Rat` as a Bool. -/
def ratLt (a b : Rat) : Bool := decide (a < b)

/-- Equality on `Rat` as a Bool. -/
def ratEq (a b : Rat) : Bool := a == b

/-- Bucket sort key for `smart_balance`:
`(-blocked, -importance, estimated_hours)`. -/
def smartKey (tasks : List (Int × Task)) (blocked : List (Int × Int)) (tid : Int) :
    Int × Int × Rat :=
  (-(alookupD blocked tid 0), -(alookupD tasks tid default).importance,
    (alookupD tasks tid default).estimated_hours)

/-- Bucket sort key for `deadline_driven`:
`(-blocked, estimated_hours, -importance)`. -/
def deadlineKey (tasks : List (Int × Task)) (blocked : List (Int × Int)) (tid : Int) :
    Int × Rat × Int :=
  (-(alookupD blocked tid 0), (alookupD tasks tid default).estimated_hours,
    -(alookupD tasks tid default).importance)

/-- Strict comparison of `smart_balance` bucket keys. -/
def smartBalanceLt (tasks : List (Int × Task)) (blocked : List (Int × Int))
    (a b : Int) : Bool :=
  ltPair intLt intEq (ltPair intLt intEq ratLt) (smartKey tasks blocked a) (smartKey tasks blocked b)

/-- Strict comparison of `deadline_driven` bucket keys. -/
def deadlineDrivenLt (tasks : List (Int × Task)) (blocked : List (Int × Int))
    (a b : Int) : Bool :=
  ltPair intLt intEq (ltPair ratLt ratEq intLt) (deadlineKey tasks blocked a) (deadlineKey tasks blocked b)

/-- Fallback sort key for `fastest_wins`: `(estimated_hours, -score)`. -/
def fwKey (tasks : List (Int × Task)) (q : Rat × Record) : Rat × Rat :=
  ((alookupD tasks q.2.id default).estimated_hours, -q.1)

/-- Fallback sort key for `high_impact`: `(-importance, -score)`. -/
def hiKey (tasks : List (Int × Task)) (q : Rat × Record) : Int × Rat :=
  (-(alookupD tasks q.2.id default).importance, -q.1)

/-- The 9-component fallback `sort_key` of the default strategies. -/
def fallbackKey (today : Int) (tasks : List (Int × Task)) (blocked : List (Int × Int))
    (indf : List (Int × Bool)) (q : Rat × Record) :
    Int × Int × Int × Int × Int × Int × Rat × Int × Rat :=
  let tid := q.2.id
  let t := alookupD tasks tid default
  let du := days_until today (parse_date t.due_date)
  let feasible := alookupD indf tid true
  let blocks := alookupD blocked tid 0
  let status := time_status du
  let blocker_rank : Int :=
    if status = "overdue" ∧ blocks > 0 then 0
    else if blocks > 0 then 1
    else 2
  let feasible_flag : Int := if feasible then 0 else 1
  let sb := overdue_today_priority today tid tasks blocked
  (blocker_rank, feasible_flag, sb.1, -blocks, sb.2, -t.importance, -q.1,
    (parse_date t.due_date).getD date_max, t.estimated_hours)

/-- Strict comparison of `fastest_wins` fallback keys. -/
def fwLt (tasks : List (Int × Task)) (a b : Rat × Record) : Bool :=
  ltPair ratLt ratEq ratLt (fwKey tasks a) (fwKey tasks b)

/-- Strict comparison of `high_impact` fallback keys. -/
def hiLt (tasks : List (Int × Task)) (a b : Rat × Record) : Bool :=
  ltPair intLt intEq ratLt (hiKey tasks a) (hiKey tasks b)

/-- Strict comparison of the default fallback keys. -/
def fallbackLt (today : Int) (tasks : List (Int × Task)) (blocked : List (Int × Int))
    (indf : List (Int × Bool)) (a b : Rat × Record) : Bool :=
  ltPair intLt intEq (ltPair intLt intEq (ltPair intLt intEq (ltPair intLt intEq
      (ltPair intLt intEq (ltPair intLt intEq (ltPair ratLt ratEq
        (ltPair intLt intEq ratLt)))))))
    (fallbackKey today tasks blocked indf a) (fallbackKey today tasks blocked indf b)

/-- The feasible-path tail of `prioritize`: bucket the feasible order by raw
due-date string, sort the bucket keys by parsed date (a comparison between a
parsed date and `None` raises `TypeError` in Python, which happens exactly
when there are at least two non-`None` keys and one of them is
unparseable), sort inside each bucket by the strategy key, and emit the
rank-scored output. -/
def feasiblePath (today : Int) (tasks : List (Int × Task)) (strategy : String)
    (s : String) (blocked : List (Int × Int)) (forder : List Int) :
    Except String (List Record) :=
  let buckets := mkBuckets tasks forder
  let keys := buckets.map (fun p => p.1)
  let nonNoneKeys := keys.filter (fun k => k.isSome)
  if decide (2 ≤ nonNoneKeys.length) && nonNoneKeys.any (fun k => (parse_date k).isNone) then
    .error "TypeError: unorderable bucket keys"
  else
    let keys_sorted := sortS (fun a b => optLtInt (parse_date a) (parse_date b)) nonNoneKeys
      ++ (if keys.contains none then [none] else [])
    let ordered := keys_sorted.foldl
      (fun acc key =>
        let ids := (blookup buckets key).getD []
        let ids :=
          if s = "smart_balance" then sortS (smartBalanceLt tasks blocked) ids
          else if s = "deadline_driven" then sortS (deadlineDrivenLt tasks blocked) ids
          else ids
        acc ++ ids)
      []
    .ok (build_output_from_order today tasks strategy ordered)

/-- The fallback tail of `prioritize`: score every task with `score_task`
and sort with the strategy-specific key. -/
def fallbackPath (today : Int) (tasks : List (Int × Task)) (strategy : String)
    (s : String) (cycles : List Int) (blocked : List (Int × Int)) : List Record :=
  let individually_feasible : List (Int × Bool) :=
    tasks.map (fun p => (p.1, per_task_feasible today p.2))
  let scored : List (Rat × Record) := tasks.map (fun p =>
    let t := p.2
    let in_cycle := cycles.contains p.1
    let earliest_dep := earliest_dependent_due p.1 tasks
    let sc := score_task today t blocked strategy in_cycle earliest_dep
    (sc.1, ⟨t.id, t.title, t.due_date, t.estimated_hours, t.importance, t.dependencies,
      pyRound2 sc.1, sc.2⟩))
  let sorted :=
    if s = "fastest_wins" then sortS (fwLt tasks) scored
    else if s = "high_impact" then sortS (hiLt tasks) scored
    else sortS (fallbackLt today tasks blocked individually_feasible) scored
  sorted.map (fun q => q.2)

/-- Source `prioritize`. -/
def prioritize (today : Int) (raw_tasks : List RawTask) (strategy : String) :
    Except String (List Record) := do
  let tasks ← build_tasks raw_tasks
  let cycles := detect_cycles tasks
  let blocked := blocked_counts tasks
  let s := strToLower (pyOr strategy "smart_balance")
  let feasible_order : Option (List Int) :=
    if s = "smart_balance" ∨ s = "deadline_driven" then
      compute_feasible_order_if_possible today tasks
    else none
  match feasible_order with
  | some forder => feasiblePath today tasks strategy s blocked forder
  | none => .ok (fallbackPath today tasks strategy s cycles blocked)

/-! ## Specification-side notions used by the claims -/

/-- Dependency edge of the claims: from a dependent task to a dependency
that is present in the task set (both endpoints are keys). -/
def edgeB (tasks : List (Int × Task)) (a b : Int) : Bool :=
  amem tasks a && amem tasks b && (alookupD tasks a default).dependencies.contains b

/-- Node `u` lies on a directed dependency cycle: a nonempty edge path from
`u` back to itself. -/
def OnCycle (tasks : List (Int × Task)) (u : Int) : Prop :=
  Relation.TransGen (fun a b => edgeB tasks a b = true) u u

/-- The same task set with every dependency id that is not a key removed. -/
def restrictDeps (tasks : List (Int × Task)) : List (Int × Task) :=
  tasks.map (fun p =>
    (p.1, ⟨p.2.id, p.2.title, p.2.due_date, p.2.estimated_hours, p.2.importance,
      p.2.dependencies.filter (fun d => amem tasks d)⟩))

/-- Total number of occurrences of `d` in all dependency lists. -/
def depOccurrences (tasks : List (Int × Task)) (d : Int) : Nat :=
  (tasks.map (fun p => p.2.dependencies.count d)).sum

/-- Number of tasks other than `d` itself that list `d` as a dependency
(the quantity claim C7 speaks about). -/
def otherTasksListing (tasks : List (Int × Task)) (d : Int) : Nat :=
  (tasks.filter (fun p => p.1 != d && p.2.dependencies.contains d)).length

/-! ## Concrete inputs used by counterexamples and witnesses -/

/-- A concrete current date (2025-06-15). -/
def today0 : Int := toDays 2025 6 15

/-- Two tasks depending mutually on each other. -/
def exMutual : List (Int × Task) :=
  [(1, ⟨1, "A", none, 1, 5, [2]⟩), (2, ⟨2, "B", none, 1, 5, [1]⟩)]

/-- Edges 1→2, 1→3, 2→1, 3→2: node 3 lies on the cycle 1→3→2→1 but the DFS
finishes 2 before visiting 3, so the back edge from 3 is missed. -/
def exC2 : List (Int × Task) :=
  [(1, ⟨1, "A", none, 1, 5, [2, 3]⟩), (2, ⟨2, "B", none, 1, 5, [1]⟩),
    (3, ⟨3, "C", none, 1, 5, [2]⟩)]

/-- Two disjoint 2-cycles. -/
def exDisjoint : List (Int × Task) :=
  [(1, ⟨1, "A", none, 1, 5, [2]⟩), (2, ⟨2, "B", none, 1, 5, [1]⟩),
    (3, ⟨3, "C", none, 1, 5, [4]⟩), (4, ⟨4, "D", none, 1, 5, [3]⟩)]

/-- A task that lists itself as a dependency. -/
def exSelfDep : List (Int × Task) := [(1, ⟨1, "A", none, 1, 5, [1]⟩)]

/-- The spec scenario `[{id:1,deps:[]},{id:2,deps:[1]}]`. -/
def exScenario : List (Int × Task) :=
  [(1, ⟨1, "A", none, 1, 5, []⟩), (2, ⟨2, "B", none, 1, 5, [1]⟩)]

/-- One raw record with every field absent. -/
def exRawOne : List RawTask := [⟨none, none, none, none, none⟩]

/-- One raw record that is overdue and infeasible (20h due yesterday
relative to `today0`). -/
def exRawInf : List RawTask := [⟨none, some "2025-06-14", some (.num 20), none, none⟩]

/-- One raw record with importance 15 (out of range). -/
def exRaw15 : List RawTask := [⟨none, none, none, some (.num 15), none⟩]

/-- One raw record with importance already clamped to 10. -/
def exRaw10 : List RawTask := [⟨none, none, none, some (.num 10), none⟩]

/-- A feasible-path input with one parseable and one unparseable due-date
string: the bucket-key sort compares a date with `None` and raises. -/
def exRawCrash : List RawTask :=
  [⟨none, some "2099-01-01", none, none, none⟩, ⟨none, some "nope", none, none, none⟩]

/-- The output record list `prioritize` produces on `exRawOne` with
`smart_balance`. -/
def exOut1 : List Record :=
  [⟨1, "Task 1", none, 0, 1, [], 2,
    "Strategy: Smart Balance. Urgency=0.20 (days until due: None). Importance=0.10 (raw 1). EffortScore=1.00 (hours 0.0). Ordered by feasibility-aware schedule (can finish all tasks)."⟩]

/-! ## Association-list lemmas -/

theorem amem_alookup {β : Type} (m : List (Int × β)) (k : Int) :
    amem m k = (alookup m k).isSome := by
  induction m with
  | nil => rfl
  | cons p rest ih =>
    simp only [amem, List.any_cons, alookup, List.find?_cons] at ih ⊢
    cases h : (p.1 == k) <;> simp [h, ih]

theorem alookup_map_replace {β : Type} (k : Int) (v : β) (k' : Int)
    (m : List (Int × β)) :
    alookup (m.map (fun p => if p.1 == k then (k, v) else p)) k'
      = if k' = k then (alookup m k).map (fun _ => v) else alookup m k' := by
  induction m with
  | nil => by_cases h : k' = k <;> simp [alookup, h]
  | cons p rest ih =>
    by_cases hp : p.1 = k
    · by_cases hk : k' = k
      · simp_all [alookup, beq_iff_eq]
      · simp_all [alookup, beq_iff_eq, Ne.symm hk]
    · by_cases hk : k' = k
      · simp_all [alookup, beq_iff_eq]
      · simp_all [alookup, beq_iff_eq]

theorem alookup_append_single {β : Type} (m : List (Int × β)) (k : Int) (v : β)
    (k' : Int) :
    alookup (m ++ [(k, v)]) k'
      = (alookup m k').or (if k' = k then some v else none) := by
  induction m with
  | nil =>
    by_cases h : k' = k <;> simp [alookup, beq_iff_eq, h]
    exact fun hh => h hh.symm
  | cons p rest ih =>
    by_cases hp : p.1 = k' <;>
      simp [alookup, beq_iff_eq, hp] at ih ⊢ <;> simp [ih]

theorem alookup_aset {β : Type} (m : List (Int × β)) (k : Int) (v : β) (k' : Int) :
    alookup (aset m k v) k' = if k' = k then some v else alookup m k' := by
  unfold aset
  by_cases hm : amem m k
  · rw [if_pos hm, alookup_map_replace]
    by_cases hk : k' = k
    · have hs : (alookup m k).isSome := by rw [← amem_alookup]; exact hm
      rcases Option.isSome_iff_exists.mp hs with ⟨w, hw⟩
      simp [hk, hw]
    · simp [hk]
  · rw [if_neg hm, alookup_append_single]
    by_cases hk : k' = k
    · have hnone : alookup m k = none := by
        have h2 := amem_alookup m k
        have hb : amem m k = false := by simpa using hm
        cases ha : alookup m k with
        | none => rfl
        | some w =>
          rw [ha, hb] at h2
          simp at h2
      rw [hk, hnone]
      simp
    · cases ha : alookup m k' <;> simp [hk, ha]

theorem amem_aset {β : Type} (m : List (Int × β)) (k : Int) (v : β) (k' : Int)
    (hm : amem m k = true) : amem (aset m k v) k' = amem m k' := by
  rw [amem_alookup, alookup_aset, amem_alookup]
  by_cases h : k' = k
  · subst h
    rw [← amem_alookup]
    simp [hm]
  · simp [h]

theorem alookup_map_const {β γ : Type} (c : γ) (k : Int) (m : List (Int × β)) :
    alookup (m.map (fun p => (p.1, c))) k = (alookup m k).map (fun _ => c) := by
  induction m with
  | nil => rfl
  | cons p rest ih =>
    by_cases h : p.1 = k <;>
      simp [alookup, List.find?_cons, beq_iff_eq, h] at ih ⊢ <;> simp [ih]

theorem amem_map_const {β γ : Type} (c : γ) (k : Int) (m : List (Int × β)) :
    amem (m.map (fun p => (p.1, c))) k = amem m k := by
  rw [amem_alookup, alookup_map_const, amem_alookup]
  cases alookup m k <;> rfl

theorem alookup_isSome_of_amem {β : Type} {m : List (Int × β)} {k : Int}
    (h : amem m k = true) : ∃ w, alookup m k = some w := by
  have hs : (alookup m k).isSome := by rw [← amem_alookup]; exact h
  exact Option.isSome_iff_exists.mp hs

/-! ## Lemmas about the counting folds of `blocked_counts` -/

theorem bc_inner_amem (l : List Int) (c : List (Int × Int)) (x : Int) :
    amem (l.foldl
      (fun c dep => if amem c dep then aset c dep (alookupD c dep 0 + 1) else c) c) x
      = amem c x := by
  induction l generalizing c with
  | nil => rfl
  | cons dep rest ih =>
    simp only [List.foldl_cons]
    by_cases hd : amem c dep
    · rw [if_pos hd, ih, amem_aset _ _ _ _ hd]
    · rw [if_neg hd, ih]

theorem bc_inner (l : List Int) (c : List (Int × Int)) (d : Int)
    (hc : amem c d = true) :
    alookup (l.foldl
      (fun c dep => if amem c dep then aset c dep (alookupD c dep 0 + 1) else c) c) d
      = some (alookupD c d 0 + (l.count d : Int)) := by
  induction l generalizing c with
  | nil =>
    rcases alookup_isSome_of_amem hc with ⟨w, hw⟩
    simp [alookupD, hw]
  | cons dep rest ih =>
    simp only [List.foldl_cons]
    by_cases hd : amem c dep
    · rw [if_pos hd]
      have hset := amem_aset c dep (alookupD c dep 0 + 1) d hd
      rw [ih _ (by rw [hset]; exact hc)]
      by_cases hdd : d = dep
      · subst hdd
        have h1 : alookupD (aset c d (alookupD c d 0 + 1)) d 0 = alookupD c d 0 + 1 := by
          simp [alookupD, alookup_aset]
        rw [h1, List.count_cons_self]
        push_cast
        ring_nf
      · have h1 : alookupD (aset c dep (alookupD c dep 0 + 1)) d 0 = alookupD c d 0 := by
          simp [alookupD, alookup_aset, hdd]
        rw [h1, List.count_cons_of_ne hdd]
    · rw [if_neg hd, ih _ hc]
      have hne : d ≠ dep := fun h => hd (h ▸ hc)
      rw [List.count_cons_of_ne hne]

theorem bc_outer (ts : List (Int × Task)) (c : List (Int × Int)) (d : Int)
    (hc : amem c d = true) :
    alookup (ts.foldl
      (fun counts p => p.2.dependencies.foldl
        (fun c dep => if amem c dep then aset c dep (alookupD c dep 0 + 1) else c)
        counts) c) d
      = some (alookupD c d 0 + (depOccurrences ts d : Int)) := by
  induction ts generalizing c with
  | nil =>
    rcases alookup_isSome_of_amem hc with ⟨w, hw⟩
    simp [depOccurrences, alookupD, hw]
  | cons p rest ih =>
    simp only [List.foldl_cons]
    have h1 := bc_inner p.2.dependencies c d hc
    have hm := bc_inner_amem p.2.dependencies c d
    rw [ih _ (by rw [hm]; exact hc)]
    have h2 : alookupD (p.2.dependencies.foldl
        (fun c dep => if amem c dep then aset c dep (alookupD c dep 0 + 1) else c) c) d 0
        = alookupD c d 0 + (p.2.dependencies.count d : Int) := by
      have e : alookupD (p.2.dependencies.foldl
          (fun c dep => if amem c dep then aset c dep (alookupD c dep 0 + 1) else c) c) d 0
          = (alookup (p.2.dependencies.foldl
            (fun c dep => if amem c dep then aset c dep (alookupD c dep 0 + 1) else c) c) d).getD 0 :=
        rfl
      rw [e, h1]
      rfl
    rw [h2]
    have h3 : depOccurrences (p :: rest) d
        = p.2.dependencies.count d + depOccurrences rest d := by
      simp [depOccurrences]
    rw [h3]
    push_cast
    ring_nf

/-! ## Claim theorems (first batch) -/

/-- C5: the claim says `build_tasks` never raises and that non-numeric
tokens in a dependencies list (not only in a delimited string) are dropped.
The code contradicts this: `list(map(int, deps))` raises `ValueError` on a
non-numeric list element, as do `float(...)`/`int(...)` on non-numeric
`estimated_hours`/`importance` strings, while the delimited-string branch
does drop bad tokens. This theorem evaluates the model at those failing
inputs. -/
theorem c5_build_tasks_raises :
    (build_tasks [⟨none, none, none, none, some (.list [.str "a"])⟩]).isOk = false
      ∧ (build_tasks [⟨none, none, some (.str "lots"), none, none⟩]).isOk = false
      ∧ (build_tasks [⟨none, none, none, some (.str "high"), none⟩]).isOk = false
      ∧ build_tasks [⟨none, none, none, none, some (.str "1,a,2")⟩]
          = .ok [(1, ⟨1, "Task 1", none, 0, 1, [1, 2]⟩)] := by
  decide

/-- C7 counterexample: for the task set in which task 1 depends on itself,
`blocked_counts` maps 1 to 1 although the number of tasks other than 1 that
list 1 among their dependencies is 0, so counts are not "the number of
other tasks that list D". -/
theorem c7_blocked_counts_self_dep :
    alookup (blocked_counts exSelfDep) 1 = some 1
      ∧ otherTasksListing exSelfDep 1 = 0 := by
  decide

/-- C7 (amended): `blocked_counts` maps each task id `d` to the total
number of occurrences of `d` in all tasks' dependency lists (which counts a
task's dependency on itself and counts duplicate listings once per
occurrence); the spec scenario `[{id:1,deps:[]},{id:2,deps:[1]}] ↦ {1:1,
2:0}` holds. -/
theorem c7_blocked_counts_occurrences :
    (∀ (tasks : List (Int × Task)) (d : Int), amem tasks d = true →
        alookup (blocked_counts tasks) d = some ((depOccurrences tasks d : Nat) : Int))
      ∧ blocked_counts exScenario = [(1, 1), (2, 0)] := by
  constructor
  · intro tasks d hd
    unfold blocked_counts
    have hinit : amem (tasks.map (fun p => (p.1, (0 : Int)))) d = true := by
      rw [amem_map_const]; exact hd
    rw [bc_outer _ _ _ hinit]
    rcases alookup_isSome_of_amem hd with ⟨w, hw⟩
    have h0 : alookup (tasks.map (fun p => (p.1, (0 : Int)))) d = some 0 := by
      rw [alookup_map_const, hw]
      rfl
    simp [alookupD, h0]
  · decide

/-- Witness for the amended C7 theorem at the spec scenario. -/
theorem c7_blocked_counts_occurrences_witness :
    amem exScenario 1 = true
      ∧ alookup (blocked_counts exScenario) 1 = some ((depOccurrences exScenario 1 : Nat) : Int) :=
  ⟨by decide, c7_blocked_counts_occurrences.1 exScenario 1 (by decide)⟩

/-- C8 counterexample: an out-of-range importance of 15 is not clamped
before use — the output of `prioritize` differs from the run where the same
task arrives with importance already clamped to 10 (the raw value is
emitted in the record and is used by sort keys and bias ranks). -/
theorem c8_importance_not_preclamped :
    prioritize 0 exRaw15 "fastest_wins" ≠ prioritize 0 exRaw10 "fastest_wins" := by
  decide

/-- C8 (amended): only the importance subscore clamps: `importance_score`
observes exactly the value clamped into [1, 10] and its result lies in
[1/10, 1]; a missing importance is defaulted to 1 at build time. The raw,
unclamped integer is what reaches output records, sort keys and bias
ranks. -/
theorem c8_importance_score_clamps (imp : Int) :
    importance_score imp = importance_score (max 1 (min 10 imp))
      ∧ (1 : Rat) / 10 ≤ importance_score imp ∧ importance_score imp ≤ 1
      ∧ build_tasks exRawOne = .ok [(1, ⟨1, "Task 1", none, 0, 1, []⟩)] := by
  unfold importance_score
  refine ⟨?_, ?_, ?_, by decide⟩
  · have h : max 1 (min 10 (max 1 (min 10 imp))) = max 1 (min 10 imp) := by omega
    rw [h]
  · have h1 : (1 : Int) ≤ max 1 (min 10 imp) := le_max_left _ _
    have hc : (1 : Rat) ≤ ((max 1 (min 10 imp) : Int) : Rat) := by exact_mod_cast h1
    have h10 : (0 : Rat) < 10 := by norm_num
    exact (div_le_div_iff_of_pos_right h10).mpr hc
  · have h2 : max 1 (min 10 imp) ≤ (10 : Int) := by omega
    have hc : ((max 1 (min 10 imp) : Int) : Rat) ≤ 10 := by exact_mod_cast h2
    have h10 : (0 : Rat) < 10 := by norm_num
    have := (div_le_div_iff_of_pos_right h10).mpr hc
    simpa using this

/-- C9: `prioritize` is deterministic — it is a function of the current
date, the raw task list and the strategy alone; two evaluations on the same
input produce the same output. The embedding needed no nondeterminism to
model the source (dict iteration is insertion-ordered, sorts are stable,
and the cycle set is only membership-tested). -/
theorem c9_prioritize_deterministic (today : Int) (raw_tasks : List RawTask)
    (strategy : String) (out1 out2 : Except String (List Record))
    (h1 : prioritize today raw_tasks strategy = out1)
    (h2 : prioritize today raw_tasks strategy = out2) : out1 = out2 :=
  h1 ▸ h2

/-- Witness for the determinism theorem at a concrete input. -/
theorem c9_prioritize_deterministic_witness :
    prioritize today0 exRawOne "smart_balance" = prioritize today0 exRawOne "smart_balance" :=
  c9_prioritize_deterministic today0 exRawOne "smart_balance" _ _ rfl rfl

/-- C4 counterexample: an unrecognized strategy string (here "foo") does
not behave like "smart_balance" (it never takes the feasibility path and
`score_task` skips the deadline boosts), and neither does the absent
(empty) strategy on an infeasible input (in `score_task` the empty string
is lowered to "" and the deadline boosts are skipped). -/
theorem c4_unrecognized_strategy_not_default :
    prioritize 0 exRawOne "foo" ≠ prioritize 0 exRawOne "smart_balance"
      ∧ prioritize today0 exRawInf "" ≠ prioritize today0 exRawInf "smart_balance" := by
  decide

/-- A string starting with a nonempty string is nonempty. -/
theorem string_append_ne_empty (a b : String) (h : a.data ≠ []) : a ++ b ≠ "" := by
  intro hh
  apply h
  have h2 : a.data ++ b.data = ([] : List Char) := congrArg String.data hh
  exact (List.append_eq_nil.mp h2).1

/-- The float literal `1.0` is the rational 1. -/
theorem mul_one_point_zero (x : Rat) : x * 1.0 = x := by norm_num

/-- The additive part of `score_task` (weighted base plus deadline boosts
plus the schedule-feasibility boost) — the score a task receives when the
dependency multiplier is 1.0. Mirrors the `base` accumulation of the
source; used to state what `score_task` does for a cycle member. -/
def depBoostedBase (today : Int) (task : Task) (blocked : List (Int × Int))
    (strategy : String) (earliest_dep_due : Option Int) : Rat :=
  let du := days_until today (parse_date task.due_date)
  let base := (base_score_and_label task strategy du).1
  let s := strToLower (pyOr strategy "")
  let base :=
    if s = "deadline_driven" ∨ s = "smart_balance" then
      match du with
      | some ddu =>
        if ddu ≤ 0 then base + 1.0
        else if ddu ≤ 2 then base + 0.6
        else if ddu ≤ 5 then base + 0.3
        else base
      | none => base
    else base
  if scheduleBoostCond today task blocked strategy earliest_dep_due then base + 0.4 else base

/-- C6: for a task flagged as a cycle member, `score_task` forces the
dependency multiplier back to exactly 1.0 — the score is the clamped
boosted base with no `1.0 + 0.3*min(blocks,4)` factor — and the
cycle-warning note replaces the blocking note in the explanation. For the
two mutually-dependent tasks both are in the detected cycle set and both
score exactly the no-bonus value 79/200 (whereas with the cycle flag off
the same task would score 1027/2000 = 79/200 × 1.3). -/
theorem c6_cycle_voids_dependency_bonus :
    (∀ (today : Int) (task : Task) (blocked : List (Int × Int)) (strategy : String)
        (edd : Option Int),
      score_task today task blocked strategy true edd
        = (max 0 (min (depBoostedBase today task blocked strategy edd) 2),
          (base_score_and_label task strategy (days_until today (parse_date task.due_date))).2
            ++ " " ++ (" Dependency cycle detected; dependency bonus ignored."
            ++ (if scheduleBoostCond today task blocked strategy edd then
                  " Earlier than its dependents; boosted for schedule feasibility." else ""))))
      ∧ detect_cycles exMutual = [1, 2]
      ∧ (score_task 0 ⟨1, "A", none, 1, 5, [2]⟩ (blocked_counts exMutual) "smart_balance"
          ((detect_cycles exMutual).contains 1) (earliest_dependent_due 1 exMutual)).1 = 79/200
      ∧ (score_task 0 ⟨2, "B", none, 1, 5, [1]⟩ (blocked_counts exMutual) "smart_balance"
          ((detect_cycles exMutual).contains 2) (earliest_dependent_due 2 exMutual)).1 = 79/200
      ∧ (score_task 0 ⟨1, "A", none, 1, 5, [2]⟩ (blocked_counts exMutual) "smart_balance"
          false (earliest_dependent_due 1 exMutual)).1 = 1027/2000 := by
  refine ⟨?_, by decide, by decide, by decide, by decide⟩
  intro today task blocked strategy edd
  by_cases hb : scheduleBoostCond today task blocked strategy edd
  · have hne : (" Dependency cycle detected; dependency bonus ignored."
        ++ " Earlier than its dependents; boosted for schedule feasibility.") ≠ "" :=
      string_append_ne_empty _ _ (by decide)
    simp only [score_task, depBoostedBase, hb, if_true, if_pos, mul_one_point_zero, hne,
      ne_eq, not_false_eq_true, ite_true]
  · have hne0 : (" Dependency cycle detected; dependency bonus ignored." : String) ≠ "" := by
      decide
    simp only [score_task, depBoostedBase, hb, mul_one_point_zero, ne_eq, ite_false, if_false]
    simp only [hne0, ne_eq, not_false_eq_true, ite_true, String.append_empty]
    rw [mul_one_point_zero]

/-! ## Strategy-congruence lemmas for the amended C4 -/

theorem ne_empty_of_lower_smart {s : String} (h : strToLower s = "smart_balance") :
    s ≠ "" := by
  intro he
  subst he
  exact absurd h (by decide)

theorem pyOr_eq_self {s : String} (d : String) (h : s ≠ "") : pyOr s d = s := by
  unfold pyOr
  rw [if_neg h]

theorem base_score_congr {s : String} (h : strToLower s = "smart_balance") :
    ∀ (task : Task) (du : Option Int),
      base_score_and_label task s du = base_score_and_label task "smart_balance" du := by
  intro task du
  unfold base_score_and_label
  rw [pyOr_eq_self _ (ne_empty_of_lower_smart h), h,
    show strToLower (pyOr "smart_balance" "smart_balance") = "smart_balance" by decide]

theorem scheduleBoostCond_congr {s : String} (h : strToLower s = "smart_balance") :
    ∀ (today : Int) (task : Task) (blocked : List (Int × Int)) (edd : Option Int),
      scheduleBoostCond today task blocked s edd
        = scheduleBoostCond today task blocked "smart_balance" edd := by
  intro today task blocked edd
  unfold scheduleBoostCond
  rw [pyOr_eq_self _ (ne_empty_of_lower_smart h), h,
    show strToLower (pyOr "smart_balance" "") = "smart_balance" by decide]

theorem score_task_congr {s : String} (h : strToLower s = "smart_balance") :
    ∀ (today : Int) (task : Task) (blocked : List (Int × Int)) (ic : Bool) (edd : Option Int),
      score_task today task blocked s ic edd
        = score_task today task blocked "smart_balance" ic edd := by
  intro today task blocked ic edd
  simp only [score_task, base_score_congr h, scheduleBoostCond_congr h,
    pyOr_eq_self _ (ne_empty_of_lower_smart h), h,
    show strToLower (pyOr "smart_balance" "") = "smart_balance" by decide]

theorem buildOutGo_congr {s : String} (h : strToLower s = "smart_balance") :
    ∀ (order : List Int) (today : Int) (tasks : List (Int × Task)) (step cur : Rat),
      buildOutGo today tasks s step order cur
        = buildOutGo today tasks "smart_balance" step order cur := by
  intro order
  induction order with
  | nil => intro today tasks step cur; rfl
  | cons tid rest ih =>
    intro today tasks step cur
    simp only [buildOutGo, base_score_congr h, ih]

theorem build_output_congr {s : String} (h : strToLower s = "smart_balance") :
    ∀ (today : Int) (tasks : List (Int × Task)) (order : List Int),
      build_output_from_order today tasks s order
        = build_output_from_order today tasks "smart_balance" order := by
  intro today tasks order
  unfold build_output_from_order
  rw [buildOutGo_congr h]

theorem feasiblePath_congr {s : String} (h : strToLower s = "smart_balance") :
    ∀ (today : Int) (tasks : List (Int × Task)) (sl : String) (blocked : List (Int × Int))
      (forder : List Int),
      feasiblePath today tasks s sl blocked forder
        = feasiblePath today tasks "smart_balance" sl blocked forder := by
  intro today tasks sl blocked forder
  simp only [feasiblePath, build_output_congr h]

theorem fallbackPath_congr {s : String} (h : strToLower s = "smart_balance") :
    ∀ (today : Int) (tasks : List (Int × Task)) (sl : String) (cycles : List Int)
      (blocked : List (Int × Int)),
      fallbackPath today tasks s sl cycles blocked
        = fallbackPath today tasks "smart_balance" sl cycles blocked := by
  intro today tasks sl cycles blocked
  simp only [fallbackPath, score_task_congr h]

/-- C4 (amended): every strategy string whose lowercase form is exactly
"smart_balance" makes `prioritize` produce the same output as the literal
"smart_balance" — the case-insensitive part of the claim. (The default for
unrecognized or absent strategies does not fully hold, see the
counterexample.) -/
theorem c4_lowercase_smart_balance_equivalent (today : Int) (raw_tasks : List RawTask)
    (s : String) (h : strToLower s = "smart_balance") :
    prioritize today raw_tasks s = prioritize today raw_tasks "smart_balance" := by
  unfold prioritize
  cases hb : build_tasks raw_tasks with
  | error e => rfl
  | ok tasks =>
    simp only [Except.bind]
    rw [pyOr_eq_self _ (ne_empty_of_lower_smart h), h,
      show strToLower (pyOr "smart_balance" "smart_balance") = "smart_balance" by decide]
    cases hf : compute_feasible_order_if_possible today tasks with
    | none => simp only [bind, Except.bind, true_or, if_true, hf, fallbackPath_congr h]
    | some forder => simp only [bind, Except.bind, true_or, if_true, hf, feasiblePath_congr h]

/-- Witness for the amended C4 theorem: an upper-case spelling. -/
theorem c4_lowercase_smart_balance_equivalent_witness :
    strToLower "SMART_BALANCE" = "smart_balance"
      ∧ prioritize today0 exRawOne "SMART_BALANCE" = prioritize today0 exRawOne "smart_balance" :=
  ⟨by decide, c4_lowercase_smart_balance_equivalent today0 exRawOne "SMART_BALANCE" (by decide)⟩

/-- C2 counterexample: in `exC2` (edges 1→2, 1→3, 2→1, 3→2) node 3 lies on
the directed cycle 3→2→1→3 (going around: 1→3, 3→2, 2→1), yet
`detect_cycles` returns only `[1, 2]` — the DFS finishes node 2 before
node 3 is visited, so the edge 3→2 finds a "done" node and no back edge. -/
theorem c2_detect_cycles_misses_node :
    detect_cycles exC2 = [1, 2] ∧ OnCycle exC2 3 ∧ 3 ∉ detect_cycles exC2 := by
  refine ⟨by decide, ?_, by decide⟩
  have e32 : edgeB exC2 3 2 = true := by decide
  have e21 : edgeB exC2 2 1 = true := by decide
  have e13 : edgeB exC2 1 3 = true := by decide
  exact Relation.TransGen.head e32 (Relation.TransGen.head e21 (Relation.TransGen.single e13))

def EdgeP (tasks : List (Int × Task)) : Int → Int → Prop :=
  fun a b => edgeB tasks a b = true

theorem mem_unionL : ∀ (l s : List Int) (u : Int), u ∈ unionL s l → u ∈ s ∨ u ∈ l := by
  intro l
  induction l with
  | nil => intro s u h; exact Or.inl h
  | cons x rest ih =>
    intro s u h
    have h2 := ih (if s.contains x then s else s ++ [x]) u h
    rcases h2 with h2 | h2
    · by_cases hc : s.contains x
      · rw [if_pos hc] at h2
        exact Or.inl h2
      · rw [if_neg hc] at h2
        rcases List.mem_append.mp h2 with h3 | h3
        · exact Or.inl h3
        · simp at h3
          subst h3
          exact Or.inr (List.mem_cons_self _ _)
    · exact Or.inr (List.mem_cons_of_mem _ h2)

theorem chain_rtg_head {r : Int → Int → Prop} :
    ∀ {a : Int} {l : List Int}, List.Chain' r (a :: l) →
      ∀ u ∈ a :: l, Relation.ReflTransGen r a u := by
  intro a l
  induction l generalizing a with
  | nil =>
    intro _ u hu
    simp at hu
    subst hu
    exact Relation.ReflTransGen.refl
  | cons b rest ih =>
    intro hch u hu
    have hab : r a b := (List.chain'_cons.mp hch).1
    rcases List.mem_cons.mp hu with rfl | hu2
    · exact Relation.ReflTransGen.refl
    · exact Relation.ReflTransGen.head hab (ih (List.chain'_cons.mp hch).2 u hu2)

theorem chain_rtg_last {r : Int → Int → Prop} :
    ∀ {a x : Int} {l : List Int}, List.Chain' r (a :: l) → (a :: l).getLast? = some x →
      ∀ u ∈ a :: l, Relation.ReflTransGen r u x := by
  intro a x l
  induction l generalizing a with
  | nil =>
    intro _ hl u hu
    simp at hu hl
    subst hu
    subst hl
    exact Relation.ReflTransGen.refl
  | cons b rest ih =>
    intro hch hl u hu
    have hab : r a b := (List.chain'_cons.mp hch).1
    have hl2 : (b :: rest).getLast? = some x := by
      rwa [List.getLast?_cons_cons] at hl
    rcases List.mem_cons.mp hu with rfl | hu2
    · exact Relation.ReflTransGen.head hab
        (ih (List.chain'_cons.mp hch).2 hl2 b (List.mem_cons_self _ _))
    · exact ih (List.chain'_cons.mp hch).2 hl2 u hu2

theorem onCycle_of_closed_chain {tasks : List (Int × Task)} {a x : Int} {l : List Int}
    (hch : List.Chain' (EdgeP tasks) (a :: l))
    (hlast : (a :: l).getLast? = some x)
    (hback : EdgeP tasks x a) :
    ∀ u ∈ a :: l, OnCycle tasks u := by
  intro u hu
  have h1 : Relation.ReflTransGen (EdgeP tasks) a u := chain_rtg_head hch u hu
  have h2 : Relation.ReflTransGen (EdgeP tasks) u x := chain_rtg_last hch hlast u hu
  exact Relation.TransGen.trans_left (Relation.TransGen.tail' h2 hback) h1

theorem drop_indexOf_mem : ∀ (stack : List Int) (tid : Int), tid ∈ stack →
    ∃ l₂, stack.drop (indexOfI stack tid) = tid :: l₂ := by
  intro stack
  induction stack with
  | nil => intro tid h; cases h
  | cons a rest ih =>
    intro tid h
    by_cases ha : a = tid
    · subst ha
      refine ⟨rest, ?_⟩
      simp [indexOfI, List.findIdx_cons]
    · have h2 : tid ∈ rest := by
        rcases List.mem_cons.mp h with h3 | h3
        · exact absurd h3.symm ha
        · exact h3
      rcases ih tid h2 with ⟨l₂, hl₂⟩
      refine ⟨l₂, ?_⟩
      have hb : (a == tid) = false := by simp [ha]
      simp [indexOfI, List.findIdx_cons, hb]
      simpa [indexOfI] using hl₂

theorem drop_indexOf_not_mem : ∀ (stack : List Int) (tid : Int), tid ∉ stack →
    stack.drop (indexOfI stack tid) = [] := by
  intro stack
  induction stack with
  | nil => intro tid _; rfl
  | cons a rest ih =>
    intro tid h
    have ha : (a == tid) = false := by
      simp only [beq_eq_false_iff_ne, ne_eq]
      intro he
      exact h (he ▸ List.mem_cons_self _ _)
    have h2 : tid ∉ rest := fun hr => h (List.mem_cons_of_mem _ hr)
    simp [indexOfI, List.findIdx_cons, ha]
    simpa [indexOfI] using ih tid h2

theorem dfsF_sound (tasks : List (Int × Task)) :
    ∀ (fuel : Nat) (tid : Int) (stack : List Int) (st : DfsSt),
      amem tasks tid = true →
      List.Chain' (EdgeP tasks) stack →
      (∀ x, stack.getLast? = some x → EdgeP tasks x tid) →
      (∀ u ∈ st.cycle_nodes, OnCycle tasks u) →
      ∀ u ∈ (dfsF tasks fuel tid stack st).cycle_nodes, OnCycle tasks u := by
  intro fuel
  induction fuel with
  | zero => intro tid stack st _ _ _ hcy; exact hcy
  | succ fuel ihf =>
    intro tid stack st htid hch hback hcy
    cases hlk : alookup st.state tid with
    | some v =>
      cases v with
      | visiting =>
        simp only [dfsF, hlk]
        intro u hu
        rcases mem_unionL _ _ _ hu with h | h
        · exact hcy u h
        · by_cases hmem : tid ∈ stack
          · rcases drop_indexOf_mem stack tid hmem with ⟨l₂, hdrop⟩
            have hsuff : stack.drop (indexOfI stack tid) <:+ stack := List.drop_suffix _ _
            have hch2 : List.Chain' (EdgeP tasks) (tid :: l₂) := by
              rw [← hdrop]
              exact hch.suffix hsuff
            have hne : stack ≠ [] := by
              intro he
              rw [he] at hmem
              cases hmem
            obtain ⟨lastx, hlast⟩ : ∃ x, stack.getLast? = some x := by
              cases hs : stack.getLast? with
              | none => exact absurd (List.getLast?_eq_none_iff.mp hs) hne
              | some y => exact ⟨y, rfl⟩
            have hbackx : EdgeP tasks lastx tid := hback lastx hlast
            have hlast2 : (tid :: l₂).getLast? = some lastx := by
              rcases hsuff with ⟨pre, hpre⟩
              rw [hdrop] at hpre
              rw [← hpre, List.getLast?_append] at hlast
              cases hgd : (tid :: l₂).getLast? with
              | none => exact absurd (List.getLast?_eq_none_iff.mp hgd) (by simp)
              | some y =>
                rw [hgd] at hlast
                simp [Option.or] at hlast
                rw [hlast]
            rw [hdrop] at h
            exact onCycle_of_closed_chain hch2 hlast2 hbackx u h
          · rw [drop_indexOf_not_mem stack tid hmem] at h
            cases h
      | done =>
        simp only [dfsF, hlk]
        exact hcy
    | none =>
      simp only [dfsF, hlk]
      have hchx : List.Chain' (EdgeP tasks) (stack ++ [tid]) := by
        rw [List.chain'_append]
        refine ⟨hch, List.chain'_singleton _, ?_⟩
        intro x hx y hy
        simp at hy
        subst hy
        exact hback x hx
      have main : ∀ (l : List Int),
          (∀ d ∈ l, d ∈ (alookupD tasks tid default).dependencies) →
          ∀ (st1 : DfsSt), (∀ u ∈ st1.cycle_nodes, OnCycle tasks u) →
          ∀ u ∈ (l.foldl
              (fun acc dep => if amem tasks dep then dfsF tasks fuel dep (stack ++ [tid]) acc
                else acc) st1).cycle_nodes,
            OnCycle tasks u := by
        intro l
        induction l with
        | nil => intro _ st1 h1 u hu; exact h1 u hu
        | cons dep rest ihl =>
          intro hsub st1 h1
          simp only [List.foldl_cons]
          refine ihl (fun d hd => hsub d (List.mem_cons_of_mem _ hd)) _ ?_
          by_cases hdep : amem tasks dep
          · rw [if_pos hdep]
            refine ihf dep (stack ++ [tid]) st1 hdep hchx ?_ h1
            intro x hx
            rw [List.getLast?_concat] at hx
            injection hx with hx
            subst hx
            show edgeB tasks tid dep = true
            unfold edgeB
            have hc : (alookupD tasks tid default).dependencies.contains dep = true :=
              List.elem_eq_true_of_mem (hsub dep (List.mem_cons_self _ _))
            rw [htid, hdep, hc]
            rfl
          · rw [if_neg hdep]
            exact h1
      exact main _ (fun d hd => hd) ⟨aset st.state tid .visiting, st.cycle_nodes⟩ hcy

theorem detect_cycles_sound (tasks : List (Int × Task)) :
    ∀ u ∈ detect_cycles tasks, OnCycle tasks u := by
  unfold detect_cycles
  have main : ∀ (l : List (Int × Task)) (st : DfsSt),
      (∀ p ∈ l, amem tasks p.1 = true) →
      (∀ u ∈ st.cycle_nodes, OnCycle tasks u) →
      ∀ u ∈ (l.foldl
          (fun st p => if (alookup st.state p.1).isNone then
            dfsF tasks (tasks.length + 1) p.1 [] st else st) st).cycle_nodes,
        OnCycle tasks u := by
    intro l
    induction l with
    | nil => intro st _ h u hu; exact h u hu
    | cons p rest ih =>
      intro st hmem h
      simp only [List.foldl_cons]
      refine ih _ (fun q hq => hmem q (List.mem_cons_of_mem _ hq)) ?_
      by_cases hp : (alookup st.state p.1).isNone
      · rw [if_pos hp]
        exact dfsF_sound tasks (tasks.length + 1) p.1 [] st
          (hmem p (List.mem_cons_self _ _)) List.chain'_nil (fun x hx => by cases hx) h
      · rw [if_neg hp]
        exact h
  refine main tasks ⟨[], []⟩ ?_ (fun u hu => by cases hu)
  intro p hp
  unfold amem
  rw [List.any_eq_true]
  exact ⟨p, hp, by simp⟩

theorem amem_restrict (tasks : List (Int × Task)) (k : Int) :
    amem (restrictDeps tasks) k = amem tasks k := by
  unfold restrictDeps amem
  rw [List.any_map]
  rfl

theorem alookup_map_value {β γ : Type} (f : β → γ) :
    ∀ (l : List (Int × β)) (k : Int),
      alookup (l.map (fun p => (p.1, f p.2))) k = (alookup l k).map f := by
  intro l
  induction l with
  | nil => intro k; rfl
  | cons p rest ih =>
    intro k
    by_cases h : p.1 = k <;> simp [alookup, h, beq_iff_eq, ih]

theorem alookup_restrict (tasks : List (Int × Task)) (k : Int) :
    alookup (restrictDeps tasks) k
      = (alookup tasks k).map (fun t =>
          (⟨t.id, t.title, t.due_date, t.estimated_hours, t.importance,
            t.dependencies.filter (fun d => amem tasks d)⟩ : Task)) := by
  unfold restrictDeps
  exact alookup_map_value
    (fun t => (⟨t.id, t.title, t.due_date, t.estimated_hours, t.importance,
      t.dependencies.filter (fun d => amem tasks d)⟩ : Task)) tasks k

theorem restrict_deps_eq (tasks : List (Int × Task)) (tid : Int) :
    (alookupD (restrictDeps tasks) tid default).dependencies
      = ((alookupD tasks tid default).dependencies).filter (fun d => amem tasks d) := by
  unfold alookupD
  rw [alookup_restrict]
  cases alookup tasks tid <;> rfl

theorem foldl_filter_guard {α : Type} (P : Int → Bool) (g : α → Int → α) :
    ∀ (l : List Int) (st : α),
      (l.filter P).foldl (fun acc dep => if P dep then g acc dep else acc) st
        = l.foldl (fun acc dep => if P dep then g acc dep else acc) st := by
  intro l
  induction l with
  | nil => intro st; rfl
  | cons dep rest ih =>
    intro st
    by_cases hP : P dep
    · rw [List.filter_cons_of_pos hP]
      simp only [List.foldl_cons, if_pos hP]
      exact ih _
    · rw [List.filter_cons_of_neg hP]
      simp only [List.foldl_cons, if_neg hP]
      exact ih _

theorem dfsF_restrict (tasks : List (Int × Task)) :
    ∀ (fuel : Nat) (tid : Int) (stack : List Int) (st : DfsSt),
      dfsF (restrictDeps tasks) fuel tid stack st = dfsF tasks fuel tid stack st := by
  intro fuel
  induction fuel with
  | zero => intro tid stack st; rfl
  | succ fuel ihf =>
    intro tid stack st
    cases hlk : alookup st.state tid with
    | some v => cases v <;> simp only [dfsF, hlk]
    | none =>
      simp only [dfsF, hlk]
      rw [restrict_deps_eq]
      have hfun : (fun (acc : DfsSt) dep =>
            if amem (restrictDeps tasks) dep then
              dfsF (restrictDeps tasks) fuel dep (stack ++ [tid]) acc
            else acc)
          = (fun acc dep => if amem tasks dep then dfsF tasks fuel dep (stack ++ [tid]) acc
              else acc) := by
        funext acc dep
        rw [amem_restrict, ihf]
      rw [hfun,
        foldl_filter_guard (fun d => amem tasks d)
          (fun acc dep => dfsF tasks fuel dep (stack ++ [tid]) acc)]

theorem detect_cycles_restrict (tasks : List (Int × Task)) :
    detect_cycles (restrictDeps tasks) = detect_cycles tasks := by
  unfold detect_cycles
  rw [show (restrictDeps tasks).length = tasks.length from by
    unfold restrictDeps; rw [List.length_map]]
  have hbody : (fun (st : DfsSt) (p : Int × Task) =>
        if (alookup st.state p.1).isNone then
          dfsF (restrictDeps tasks) (tasks.length + 1) p.1 [] st
        else st)
      = (fun st p => if (alookup st.state p.1).isNone then
          dfsF tasks (tasks.length + 1) p.1 [] st else st) := by
    funext st p
    rw [dfsF_restrict]
  rw [hbody]
  have hfold : ∀ (st : DfsSt),
      (restrictDeps tasks).foldl
        (fun st p => if (alookup st.state p.1).isNone then
          dfsF tasks (tasks.length + 1) p.1 [] st else st) st
      = tasks.foldl
        (fun st p => if (alookup st.state p.1).isNone then
          dfsF tasks (tasks.length + 1) p.1 [] st else st) st := by
    intro st
    unfold restrictDeps
    rw [List.foldl_map]
  rw [hfold]

/-- C2 (amended): `detect_cycles` returns a subset of the union of the
directed cycles' nodes — every returned id lies on some dependency cycle
over in-set edges; it accumulates membership across multiple disjoint
cycles (for the two disjoint 2-cycles it returns all four nodes), and
dependency ids not present in the task set never affect the result. (It is
not exactly the union: see the counterexample.) -/
theorem c2_detect_cycles_subset_of_cycles :
    (∀ (tasks : List (Int × Task)) (u : Int), u ∈ detect_cycles tasks → OnCycle tasks u)
      ∧ (∀ tasks : List (Int × Task), detect_cycles (restrictDeps tasks) = detect_cycles tasks)
      ∧ detect_cycles exDisjoint = [1, 2, 3, 4] :=
  ⟨fun tasks u hu => detect_cycles_sound tasks u hu,
    detect_cycles_restrict, by decide⟩

/-- Witness for the amended C2 theorem: node 1 of the disjoint-cycles
example is reported and indeed lies on a cycle. -/
theorem c2_detect_cycles_subset_of_cycles_witness :
    1 ∈ detect_cycles exDisjoint ∧ OnCycle exDisjoint 1 :=
  ⟨by decide, c2_detect_cycles_subset_of_cycles.1 exDisjoint 1 (by decide)⟩

/-- Claim-side view: the due-dated tasks (with parsed due day) in encounter order. -/
def dueTasks (tasks : List (Int × Task)) : List (Task × Int) :=
  tasks.filterMap (fun p => (parse_date p.2.due_date).map (fun d => (p.2, d)))

/-- Claim-side view: the due-dated tasks sorted by due date ascending, ties keeping encounter order (stable sort). -/
def dueSorted (tasks : List (Int × Task)) : List (Task × Int) :=
  sortS (fun a b => decide (a.2 < b.2)) (dueTasks tasks)

/-- Claim-side view: ids of the tasks without a (parseable) due date, in original order. -/
def noDueIds (tasks : List (Int × Task)) : List Int :=
  (tasks.filter (fun p => (parse_date p.2.due_date).isNone)).map (fun p => p.2.id)

/-- The claim's failure condition: at some task of the due-sorted walk, the running cumulative estimated hours exceed `max 0 (days until due) * HOURS_PER_DAY`. -/
def specViolation (today : Int) (tasks : List (Int × Task)) : Prop :=
  ∃ l₁ td l₂, dueSorted tasks = l₁ ++ td :: l₂
    ∧ (l₁.map (fun q => q.1.estimated_hours)).sum + td.1.estimated_hours
        > ((max 0 (td.2 - today) : Int) : Rat) * HOURS_PER_DAY

theorem insertS_map {α β : Type} (f : α → β) (lt1 : α → α → Bool) (lt2 : β → β → Bool)
    (hlt : ∀ a b, lt2 (f a) (f b) = lt1 a b) (x : α) :
    ∀ l : List α, insertS lt2 (f x) (l.map f) = (insertS lt1 x l).map f := by
  intro l
  induction l with
  | nil => rfl
  | cons y rest ih =>
    simp only [List.map_cons, insertS, hlt]
    by_cases h : lt1 y x
    · rw [if_pos h, if_pos h, List.map_cons, ih]
    · rw [if_neg h, if_neg h]
      rfl

theorem sortS_map {α β : Type} (f : α → β) (lt1 : α → α → Bool) (lt2 : β → β → Bool)
    (hlt : ∀ a b, lt2 (f a) (f b) = lt1 a b) :
    ∀ l : List α, sortS lt2 (l.map f) = (sortS lt1 l).map f := by
  intro l
  induction l with
  | nil => rfl
  | cons x rest ih =>
    simp only [List.map_cons, sortS, ih]
    exact insertS_map f lt1 lt2 hlt x _

theorem with_deadline_eq (tasks : List (Int × Task))
    (h : ∀ p ∈ tasks, 0 ≤ p.2.estimated_hours) :
    (tasks.map (fun p =>
        Enriched.mk p.2.id (parse_date p.2.due_date) (max 0 p.2.estimated_hours))).filter
      (fun e => e.due.isSome)
      = (dueTasks tasks).map (fun q => Enriched.mk q.1.id (some q.2) q.1.estimated_hours) := by
  induction tasks with
  | nil => rfl
  | cons p rest ih =>
    have hp : (0 : Rat) ≤ p.2.estimated_hours := h p (List.mem_cons_self _ _)
    have hmax : max 0 p.2.estimated_hours = p.2.estimated_hours := max_eq_right hp
    have ih2 := ih (fun q hq => h q (List.mem_cons_of_mem _ hq))
    cases hd : parse_date p.2.due_date with
    | none =>
      simp only [List.map_cons, dueTasks, List.filterMap_cons, hd, Option.map_none']
      simpa [List.filter_cons, hd, dueTasks] using ih2
    | some d =>
      simp only [List.map_cons, dueTasks, List.filterMap_cons, hd, Option.map_some']
      simp only [List.filter_cons, hd, Option.isSome_some, if_pos]
      simp [hmax, dueTasks] at ih2 ⊢
      exact ih2

theorem without_deadline_ids (tasks : List (Int × Task)) :
    ((tasks.map (fun p =>
        Enriched.mk p.2.id (parse_date p.2.due_date) (max 0 p.2.estimated_hours))).filter
      (fun e => e.due.isNone)).map (fun e => e.id)
      = noDueIds tasks := by
  induction tasks with
  | nil => rfl
  | cons p rest ih =>
    cases hd : parse_date p.2.due_date with
    | none => simp [noDueIds, List.filter_cons, hd] at ih ⊢; exact ih
    | some d => simp [noDueIds, List.filter_cons, hd] at ih ⊢; exact ih

theorem feasWalk_false_iff (today : Int) :
    ∀ (l : List (Task × Int)) (c : Rat),
      feasWalk today (l.map (fun q => Enriched.mk q.1.id (some q.2) q.1.estimated_hours)) c
          = false
        ↔ ∃ l₁ td l₂, l = l₁ ++ td :: l₂
            ∧ c + (l₁.map (fun q => q.1.estimated_hours)).sum + td.1.estimated_hours
                > ((max 0 (td.2 - today) : Int) : Rat) * HOURS_PER_DAY := by
  intro l
  induction l with
  | nil =>
    intro c
    constructor
    · intro h
      exact absurd h (by simp [feasWalk])
    · rintro ⟨l₁, td, l₂, habs, _⟩
      exact absurd habs (by simp)
  | cons q rest ih =>
    intro c
    have hred : feasWalk today
        ((q :: rest).map (fun q => Enriched.mk q.1.id (some q.2) q.1.estimated_hours)) c
        = if c + q.1.estimated_hours > ((max 0 (q.2 - today) : Int) : Rat) * HOURS_PER_DAY
          then false
          else feasWalk today
            (rest.map (fun q => Enriched.mk q.1.id (some q.2) q.1.estimated_hours))
            (c + q.1.estimated_hours) := by
      simp only [List.map_cons, feasWalk, latest_finish_hours, days_until]
    rw [hred]
    by_cases hc : c + q.1.estimated_hours > ((max 0 (q.2 - today) : Int) : Rat) * HOURS_PER_DAY
    · rw [if_pos hc]
      constructor
      · intro _
        refine ⟨[], q, rest, rfl, ?_⟩
        simpa using hc
      · intro _
        rfl
    · rw [if_neg hc]
      rw [ih (c + q.1.estimated_hours)]
      constructor
      · rintro ⟨l₁, td, l₂, heq, hgt⟩
        refine ⟨q :: l₁, td, l₂, by rw [heq, List.cons_append], ?_⟩
        simp only [List.map_cons, List.sum_cons]
        calc c + (q.1.estimated_hours + (l₁.map (fun q => q.1.estimated_hours)).sum)
              + td.1.estimated_hours
            = c + q.1.estimated_hours + (l₁.map (fun q => q.1.estimated_hours)).sum
              + td.1.estimated_hours := by ring
          _ > _ := hgt
      · rintro ⟨l₁, td, l₂, heq, hgt⟩
        cases l₁ with
        | nil =>
          simp only [List.nil_append] at heq
          injection heq with h1 h2
          subst h1
          exfalso
          apply hc
          simpa using hgt
        | cons q0 l₁ =>
          simp only [List.cons_append] at heq
          injection heq with h1 h2
          subst h1
          refine ⟨l₁, td, l₂, h2, ?_⟩
          calc c + q.1.estimated_hours + (l₁.map (fun q => q.1.estimated_hours)).sum
                + td.1.estimated_hours
              = c + ((q :: l₁).map (fun q => q.1.estimated_hours)).sum
                + td.1.estimated_hours := by simp [List.sum_cons]; ring
            _ > _ := hgt

/-- C1: for every task set satisfying the data model (non-negative
estimated hours), `compute_feasible_order_if_possible` returns `None` iff
walking the due-dated tasks in due-date order (ties keeping encounter
order) the running cumulative estimated hours exceed
`max 0 (days between today and that due date) * HOURS_PER_DAY` at some
task; otherwise it returns the full order: due-sorted ids followed by the
no-due-date ids in original order — never a partial result. -/
theorem c1_feasible_order_iff (today : Int) (tasks : List (Int × Task))
    (h : ∀ p ∈ tasks, 0 ≤ p.2.estimated_hours) :
    (compute_feasible_order_if_possible today tasks = none ↔ specViolation today tasks)
      ∧ (¬ specViolation today tasks →
          compute_feasible_order_if_possible today tasks
            = some ((dueSorted tasks).map (fun q => q.1.id) ++ noDueIds tasks)) := by
  have hwd := with_deadline_eq tasks h
  have hsort : sortS (fun a b => optLtInt a.due b.due)
      ((dueTasks tasks).map (fun q => Enriched.mk q.1.id (some q.2) q.1.estimated_hours))
      = (dueSorted tasks).map (fun q => Enriched.mk q.1.id (some q.2) q.1.estimated_hours) :=
    sortS_map _ _ _ (fun a b => rfl) _
  have hviol : specViolation today tasks
      ↔ (feasWalk today
          ((dueSorted tasks).map (fun q => Enriched.mk q.1.id (some q.2) q.1.estimated_hours))
          0 = false) := by
    have hi := feasWalk_false_iff today (dueSorted tasks) 0
    simp only [zero_add] at hi
    unfold specViolation
    exact hi.symm
  simp only [compute_feasible_order_if_possible]
  rw [hwd, hsort]
  cases hw : feasWalk today
      ((dueSorted tasks).map (fun q => Enriched.mk q.1.id (some q.2) q.1.estimated_hours)) 0 with
  | false =>
    rw [if_neg (show ¬ (false = true) by decide)]
    constructor
    · constructor
      · intro _
        exact hviol.mpr hw
      · intro _
        rfl
    · intro hnv
      exact absurd (hviol.mpr hw) hnv
  | true =>
    rw [if_pos (show (true = true) from rfl)]
    have hnv : ¬ specViolation today tasks := by
      intro hv
      rw [hviol] at hv
      rw [hw] at hv
      cases hv
    constructor
    · constructor
      · intro habs
        cases habs
      · intro hv
        exact absurd hv hnv
    · intro _
      congr 1
      rw [without_deadline_ids]
      congr 1
      rw [List.map_map]
      rfl

/-- Witness for the C1 theorem at a concrete infeasible input. -/
theorem c1_feasible_order_iff_witness :
    (∀ p ∈ [((1 : Int), (⟨1, "T", some "2025-06-14", 20, 5, []⟩ : Task))], 0 ≤ p.2.estimated_hours)
      ∧ ((compute_feasible_order_if_possible today0
            [((1 : Int), (⟨1, "T", some "2025-06-14", 20, 5, []⟩ : Task))] = none
          ↔ specViolation today0 [((1 : Int), (⟨1, "T", some "2025-06-14", 20, 5, []⟩ : Task))])
        ∧ (¬ specViolation today0 [((1 : Int), (⟨1, "T", some "2025-06-14", 20, 5, []⟩ : Task))] →
            compute_feasible_order_if_possible today0
              [((1 : Int), (⟨1, "T", some "2025-06-14", 20, 5, []⟩ : Task))]
              = some ((dueSorted [((1 : Int), (⟨1, "T", some "2025-06-14", 20, 5, []⟩ : Task))]).map
                  (fun q => q.1.id)
                ++ noDueIds [((1 : Int), (⟨1, "T", some "2025-06-14", 20, 5, []⟩ : Task))]))) :=
  ⟨by decide, c1_feasible_order_iff today0 _ (by decide)⟩

theorem ratFloor_eq_floor (q : Rat) : ratFloor q = ⌊q⌋ := by
  unfold ratFloor
  rw [Int.fdiv_eq_ediv _ (by positivity)]
  conv_rhs => rw [← Rat.num_div_den q]
  rw [Rat.floor_intCast_div_natCast]

theorem roundHalfEven_nonneg {q : Rat} (h : 0 ≤ q) : 0 ≤ roundHalfEven q := by
  have hf : (0 : Int) ≤ ⌊q⌋ := Int.floor_nonneg.mpr h
  simp only [roundHalfEven, ratFloor_eq_floor]
  split_ifs <;> omega

theorem roundHalfEven_le {q : Rat} {B : Int} (h : q ≤ (B : Rat)) :
    roundHalfEven q ≤ B := by
  simp only [roundHalfEven, ratFloor_eq_floor]
  have hfB : ⌊q⌋ ≤ B := by
    calc ⌊q⌋ ≤ ⌊(B : Rat)⌋ := Int.floor_le_floor h
      _ = B := Int.floor_intCast B
  split_ifs with h1 h2 h3
  · exact hfB
  · -- q - ⌊q⌋ > 1/2, so ⌊q⌋ < B
    have hq : (⌊q⌋ : Rat) + 1/2 < q := by linarith
    have : (⌊q⌋ : Rat) < B := by
      have hqB : q ≤ (B : Rat) := h
      linarith
    have : ⌊q⌋ < B := by exact_mod_cast this
    omega
  · exact hfB
  · have hq : (⌊q⌋ : Rat) + 1/2 ≤ q := by linarith
    have : (⌊q⌋ : Rat) < B := by linarith
    have : ⌊q⌋ < B := by exact_mod_cast this
    omega

theorem pyRound2_bounds {x : Rat} (h0 : 0 ≤ x) (h2 : x ≤ 2) :
    0 ≤ pyRound2 x ∧ pyRound2 x ≤ 2 := by
  unfold pyRound2
  have hb0 : 0 ≤ roundHalfEven (x * 100) := roundHalfEven_nonneg (by linarith)
  have hb2 : roundHalfEven (x * 100) ≤ (200 : Int) := by
    apply roundHalfEven_le
    push_cast
    linarith
  constructor
  · positivity
  · rw [div_le_iff (by norm_num : (0:Rat) < 100)]
    calc ((roundHalfEven (x * 100) : Int) : Rat) ≤ ((200 : Int) : Rat) := by exact_mod_cast hb2
      _ = 2 * 100 := by norm_num

theorem max_min_bounds (x : Rat) : 0 ≤ max 0 (min x 2) ∧ max 0 (min x 2) ≤ 2 :=
  ⟨le_max_left 0 _, max_le (by norm_num) (min_le_right _ _)⟩

theorem score_task_fst_bounds (today : Int) (task : Task) (blocked : List (Int × Int))
    (strategy : String) (ic : Bool) (edd : Option Int) :
    0 ≤ (score_task today task blocked strategy ic edd).1
      ∧ (score_task today task blocked strategy ic edd).1 ≤ 2 := by
  constructor <;>
    · simp only [score_task]
      repeat' split
      all_goals
        first
        | exact le_max_left 0 _
        | exact max_le (by norm_num) (min_le_right _ _)

theorem insertS_perm {α : Type} (lt : α → α → Bool) (x : α) :
    ∀ l : List α, List.Perm (insertS lt x l) (x :: l) := by
  intro l
  induction l with
  | nil => exact List.Perm.refl _
  | cons y rest ih =>
    simp only [insertS]
    by_cases h : lt y x
    · rw [if_pos h]
      exact (List.Perm.cons y ih).trans (List.Perm.swap x y rest)
    · rw [if_neg h]

theorem sortS_perm {α : Type} (lt : α → α → Bool) :
    ∀ l : List α, List.Perm (sortS lt l) l := by
  intro l
  induction l with
  | nil => exact List.Perm.refl _
  | cons x rest ih =>
    simp only [sortS]
    exact (insertS_perm lt x (sortS lt rest)).trans (List.Perm.cons x ih)

theorem mem_sortS {α : Type} {lt : α → α → Bool} {x : α} {l : List α}
    (h : x ∈ sortS lt l) : x ∈ l :=
  (sortS_perm lt l).mem_iff.mp h

theorem buildOutGo_score_bounds (today : Int) (tasks : List (Int × Task))
    (strategy : String) (step : Rat) (hstep : 0 ≤ step) :
    ∀ (order : List Int) (cur : Rat), 0 ≤ cur → cur ≤ 2 →
      ∀ r ∈ buildOutGo today tasks strategy step order cur, 0 ≤ r.score ∧ r.score ≤ 2 := by
  intro order
  induction order with
  | nil => intro cur _ _ r hr; cases hr
  | cons tid rest ih =>
    intro cur h0 h2 r hr
    simp only [buildOutGo] at hr
    rcases List.mem_cons.mp hr with rfl | hr2
    · exact pyRound2_bounds h0 h2
    · exact ih (max 0 (cur - step)) (le_max_left _ _)
        (max_le (by norm_num) (by linarith)) r hr2

theorem build_output_score_bounds (today : Int) (tasks : List (Int × Task))
    (strategy : String) (order : List Int) :
    ∀ r ∈ build_output_from_order today tasks strategy order, 0 ≤ r.score ∧ r.score ≤ 2 := by
  intro r hr
  unfold build_output_from_order at hr
  refine buildOutGo_score_bounds today tasks strategy _ ?_ order 2.0 (by norm_num) (by norm_num) r hr
  positivity

theorem fallbackPath_score_bounds (today : Int) (tasks : List (Int × Task))
    (strategy sl : String) (cycles : List Int) (blocked : List (Int × Int)) :
    ∀ r ∈ fallbackPath today tasks strategy sl cycles blocked, 0 ≤ r.score ∧ r.score ≤ 2 := by
  intro r hr
  unfold fallbackPath at hr
  rcases List.mem_map.mp hr with ⟨q, hq, hq2⟩
  have hq3 : q ∈ tasks.map (fun p =>
      ((score_task today p.2 blocked strategy (cycles.contains p.1)
          (earliest_dependent_due p.1 tasks)).1,
        (⟨p.2.id, p.2.title, p.2.due_date, p.2.estimated_hours, p.2.importance,
          p.2.dependencies,
          pyRound2 (score_task today p.2 blocked strategy (cycles.contains p.1)
            (earliest_dependent_due p.1 tasks)).1,
          (score_task today p.2 blocked strategy (cycles.contains p.1)
            (earliest_dependent_due p.1 tasks)).2⟩ : Record))) := by
    split_ifs at hq <;> exact mem_sortS hq
  rcases List.mem_map.mp hq3 with ⟨p, _, hp2⟩
  have hb := score_task_fst_bounds today p.2 blocked strategy (cycles.contains p.1)
    (earliest_dependent_due p.1 tasks)
  subst hq2
  rw [← hp2]
  exact pyRound2_bounds hb.1 hb.2

/-- C3: every record output by `prioritize` carries a score in [0, 2]: on
the fallback path the stored score is `round(max(0, min(base*mult, 2)), 2)`
and on the feasible-schedule path the rank scores walk down from 2.0 in
steps of `2.0/N` clamped at 0, so rounding keeps both within the range. -/
theorem c3_scores_within_bounds (today : Int) (raw_tasks : List RawTask) (strategy : String)
    (out : List Record) (r : Record)
    (hok : prioritize today raw_tasks strategy = .ok out) (hr : r ∈ out) :
    0 ≤ r.score ∧ r.score ≤ 2 := by
  unfold prioritize at hok
  cases hb : build_tasks raw_tasks with
  | error e =>
    rw [hb] at hok
    simp only [bind, Except.bind] at hok
    cases hok
  | ok tasks =>
    rw [hb] at hok
    simp only [bind, Except.bind] at hok
    split at hok
    · -- feasible path
      simp only [feasiblePath] at hok
      split at hok
      · cases hok
      · injection hok with hok
        subst hok
        exact build_output_score_bounds _ _ _ _ r hr
    · -- fallback path
      injection hok with hok
      subst hok
      exact fallbackPath_score_bounds _ _ _ _ _ _ r hr

/-- Witness for the C3 bounds theorem on a concrete fallback run. -/
theorem c3_scores_within_bounds_witness :
    0 ≤ (((prioritize 0 exRawOne "high_impact").toOption.getD []).headD default).score
      ∧ (((prioritize 0 exRawOne "high_impact").toOption.getD []).headD default).score ≤ 2 :=
  c3_scores_within_bounds 0 exRawOne "high_impact"
    ((prioritize 0 exRawOne "high_impact").toOption.getD [])
    (((prioritize 0 exRawOne "high_impact").toOption.getD []).headD default)
    (by decide) (by decide)






theorem alookup_mem {β : Type} : ∀ {m : List (Int × β)} {k : Int} {v : β},
    alookup m k = some v → (k, v) ∈ m := by
  intro m
  induction m with
  | nil => intro k v h; cases h
  | cons p rest ih =>
    intro k v h
    simp only [alookup] at h
    by_cases hp : p.1 = k
    · rw [if_pos (by simpa using hp)] at h
      injection h with h
      have he : (k, v) = p := by
        rw [← hp, ← h]
      exact he ▸ List.mem_cons_self p rest
    · rw [if_neg (by simpa using hp)] at h
      exact List.mem_cons_of_mem _ (ih h)

theorem buildOne_id (idx : Int) (item : RawTask) {t : Task}
    (h : buildOne idx item = .ok t) : t.id = idx := by
  simp only [buildOne, bind, Except.bind] at h
  cases h1 : pyFloatOf item.estimated_hours with
  | error e => rw [h1] at h; cases h
  | ok eh =>
    rw [h1] at h
    cases h2 : pyIntOfD 1 item.importance with
    | error e => rw [h2] at h; cases h
    | ok imp =>
      rw [h2] at h
      cases h3 : buildDeps item.dependencies with
      | error e => rw [h3] at h; cases h
      | ok deps =>
        rw [h3] at h
        injection h with h
        rw [← h]

theorem range_map_shift (idx : Int) (n : Nat) :
    (List.range (n + 1)).map (fun k : Nat => idx + (k : Int))
      = idx :: (List.range n).map (fun k : Nat => (idx + 1) + (k : Int)) := by
  rw [List.range_succ_eq_map, List.map_cons, List.map_map]
  congr 1
  · simp
  · apply List.map_congr_left
    intro k _
    simp only [Function.comp_apply]
    push_cast
    ring

theorem buildTasksGo_spec : ∀ (raw : List RawTask) (idx : Int) (tm : List (Int × Task)),
    buildTasksGo idx raw = .ok tm →
    tm.map Prod.fst = (List.range raw.length).map (fun n : Nat => idx + (n : Int))
      ∧ ∀ q ∈ tm, q.2.id = q.1 := by
  intro raw
  induction raw with
  | nil =>
    intro idx tm h
    injection h with h
    subst h
    exact ⟨rfl, fun q hq => by cases hq⟩
  | cons item rest ih =>
    intro idx tm h
    simp only [buildTasksGo, bind, Except.bind] at h
    cases h1 : buildOne idx item with
    | error e => rw [h1] at h; cases h
    | ok t =>
      rw [h1] at h
      cases h2 : buildTasksGo (idx + 1) rest with
      | error e => rw [h2] at h; cases h
      | ok tl =>
        rw [h2] at h
        injection h with h
        subst h
        rcases ih (idx + 1) tl h2 with ⟨hdu, hids⟩
        constructor
        · simp only [List.map_cons, List.length_cons, hdu]
          rw [range_map_shift]
        · intro q hq
          rcases List.mem_cons.mp hq with rfl | hq2
          · exact buildOne_id idx item h1
          · exact hids q hq2

theorem bmem_iff {κ β : Type} [BEq κ] [LawfulBEq κ] (b : List (κ × β)) (k : κ) :
    bmem b k = true ↔ k ∈ b.map Prod.fst := by
  unfold bmem
  rw [List.any_eq_true]
  constructor
  · rintro ⟨p, hp, hb⟩
    rw [List.mem_map]
    exact ⟨p, hp, (eq_of_beq hb).symm ▸ rfl⟩
  · intro h
    rcases List.mem_map.mp h with ⟨p, hp, hk⟩
    refine ⟨p, hp, ?_⟩
    rw [hk]
    exact beq_self_eq_true k

theorem bucketAdd_keys (b : List (Option String × List Int)) (k : Option String) (tid : Int) :
    (bucketAdd b k tid).map Prod.fst
      = if bmem b k then b.map Prod.fst else b.map Prod.fst ++ [k] := by
  unfold bucketAdd
  by_cases h : bmem b k
  · rw [if_pos h, if_pos h, List.map_map]
    apply List.map_congr_left
    intro p _
    simp only [Function.comp_apply]
    by_cases hp : (p.1 == k) = true
    · rw [if_pos hp]
    · rw [if_neg hp]
  · rw [if_neg h, if_neg h]
    simp

theorem map_untouched_of_no_key (k : Option String) (tid : Int) :
    ∀ (b : List (Option String × List Int)), (∀ p ∈ b, (p.1 == k) = false) →
      b.map (fun p => if p.1 == k then (p.1, p.2 ++ [tid]) else p) = b := by
  intro b hb
  rw [List.map_congr_left (g := id) ?_, List.map_id]
  intro p hp
  rw [if_neg (by rw [hb p hp]; exact fun hh => by cases hh)]
  rfl

theorem flat_bucketAdd (k : Option String) (tid : Int) :
    ∀ (b : List (Option String × List Int)), (b.map Prod.fst).Nodup →
      List.Perm ((bucketAdd b k tid).flatMap (fun p => p.2))
        ((b.flatMap (fun p => p.2)) ++ [tid]) := by
  intro b
  induction b with
  | nil => intro _; exact List.Perm.refl _
  | cons p0 rest ih =>
    intro hnd
    have hnd2 : (rest.map Prod.fst).Nodup := (List.nodup_cons.mp hnd).2
    have hp0 : p0.1 ∉ rest.map Prod.fst := (List.nodup_cons.mp hnd).1
    by_cases hk : (p0.1 == k) = true
    · have hke : p0.1 = k := eq_of_beq hk
      have hbm : bmem (p0 :: rest) k = true := by
        unfold bmem
        rw [List.any_cons, hk]
        rfl
      unfold bucketAdd
      rw [if_pos hbm]
      simp only [List.map_cons, if_pos hk]
      have hrest : ∀ p ∈ rest, (p.1 == k) = false := by
        intro p hp
        rw [beq_eq_false_iff_ne]
        intro he
        exact hp0 (by rw [hke, ← he]; exact List.mem_map_of_mem _ hp)
      rw [map_untouched_of_no_key k tid rest hrest]
      simp only [List.flatMap_cons]
      rw [List.append_assoc, List.append_assoc]
      exact List.Perm.append_left _ List.perm_append_comm
    · by_cases hm : bmem rest k
      · have hbm : bmem (p0 :: rest) k = true := by
          unfold bmem at hm ⊢
          rw [List.any_cons, hm]
          simp
        unfold bucketAdd
        rw [if_pos hbm]
        simp only [List.map_cons]
        rw [if_neg hk]
        have hrec := ih hnd2
        unfold bucketAdd at hrec
        rw [if_pos hm] at hrec
        simp only [List.flatMap_cons]
        rw [List.append_assoc]
        exact List.Perm.append_left _ hrec
      · have hbm : bmem (p0 :: rest) k = false := by
          simp only [Bool.not_eq_true] at hk hm
          unfold bmem at hm ⊢
          rw [List.any_cons, hk, hm]
          rfl
        unfold bucketAdd
        rw [if_neg (by rw [hbm]; exact fun hh => by cases hh)]
        simp

theorem bucketAdd_keys_nodup (b : List (Option String × List Int)) (k : Option String)
    (tid : Int) (h : (b.map Prod.fst).Nodup) : ((bucketAdd b k tid).map Prod.fst).Nodup := by
  rw [bucketAdd_keys]
  by_cases hm : bmem b k
  · rw [if_pos hm]
    exact h
  · rw [if_neg hm]
    have hk : k ∉ b.map Prod.fst := by
      intro hmem
      exact hm ((bmem_iff b k).mpr hmem)
    simp [List.nodup_append, h, hk]


theorem foldl_append_eq_flatMap {α β : Type} (f : α → List β) :
    ∀ (l : List α) (init : List β),
      l.foldl (fun acc k => acc ++ f k) init = init ++ l.flatMap f := by
  intro l
  induction l with
  | nil => intro init; simp
  | cons a rest ih =>
    intro init
    rw [List.foldl_cons, ih, List.flatMap_cons, List.append_assoc]

theorem flatMap_congr_mem {α β : Type} (f g : α → List β) :
    ∀ l : List α, (∀ a ∈ l, f a = g a) → l.flatMap f = l.flatMap g := by
  intro l
  induction l with
  | nil => intro _; rfl
  | cons a rest ih =>
    intro h
    rw [List.flatMap_cons, List.flatMap_cons, h a (List.mem_cons_self _ _),
      ih (fun x hx => h x (List.mem_cons_of_mem _ hx))]

theorem mem_fst_amem {β : Type} {m : List (Int × β)} {k : Int}
    (h : k ∈ m.map Prod.fst) : amem m k = true := by
  rcases List.mem_map.mp h with ⟨p, hp, hk⟩
  unfold amem
  rw [List.any_eq_true]
  refine ⟨p, hp, ?_⟩
  rw [hk]
  exact beq_self_eq_true k

theorem alookupD_mem {β : Type} (m : List (Int × β)) (k : Int) (d : β)
    (h : k ∈ m.map Prod.fst) : (k, alookupD m k d) ∈ m := by
  have ha := mem_fst_amem h
  rw [amem_alookup] at ha
  cases hv : alookup m k with
  | none => rw [hv] at ha; cases ha
  | some v =>
    have hd : alookupD m k d = v := by rw [alookupD, hv]; rfl
    rw [hd]
    exact alookup_mem hv

theorem mkBuckets_inv (tasks : List (Int × Task)) :
    ∀ (forder : List Int) (b : List (Option String × List Int)),
      (b.map Prod.fst).Nodup →
      (((forder.foldl (fun bb tid =>
            bucketAdd bb (alookupD tasks tid default).due_date tid) b).map Prod.fst).Nodup
        ∧ List.Perm ((forder.foldl (fun bb tid =>
              bucketAdd bb (alookupD tasks tid default).due_date tid) b).flatMap
                (fun p => p.2))
            ((b.flatMap (fun p => p.2)) ++ forder)) := by
  intro forder
  induction forder with
  | nil =>
    intro b h
    exact ⟨h, by simp⟩
  | cons tid rest ih =>
    intro b h
    rw [List.foldl_cons]
    rcases ih (bucketAdd b (alookupD tasks tid default).due_date tid)
        (bucketAdd_keys_nodup _ _ _ h) with ⟨hnd, hperm⟩
    refine ⟨hnd, ?_⟩
    refine hperm.trans ?_
    refine (List.Perm.append_right rest (flat_bucketAdd _ _ b h)).trans ?_
    rw [List.append_assoc]
    exact List.Perm.refl _

theorem mkBuckets_spec (tasks : List (Int × Task)) (forder : List Int) :
    ((mkBuckets tasks forder).map Prod.fst).Nodup
      ∧ List.Perm ((mkBuckets tasks forder).flatMap (fun p => p.2)) forder := by
  have h := mkBuckets_inv tasks forder [] (by simp)
  unfold mkBuckets
  exact ⟨h.1, by simpa using h.2⟩

theorem filter_isNone_nil_of_not_mem {α : Type} :
    ∀ (l : List (Option α)), none ∉ l → l.filter (fun k => k.isNone) = [] := by
  intro l
  induction l with
  | nil => intro _; rfl
  | cons a rest ih =>
    intro h
    have ha : a.isNone = false := by
      cases a with
      | none => exact absurd (List.mem_cons_self _ _) h
      | some x => rfl
    rw [List.filter_cons, ha]
    simp only [Bool.false_eq_true, if_false]
    exact ih (fun hm => h (List.mem_cons_of_mem _ hm))

theorem nodup_filter_isNone {α : Type} [BEq α] [LawfulBEq α] :
    ∀ (l : List (Option α)), l.Nodup →
      l.filter (fun k => k.isNone) = if l.contains none then [none] else [] := by
  intro l
  induction l with
  | nil => intro _; simp
  | cons a rest ih =>
    intro hnd
    rcases List.nodup_cons.mp hnd with ⟨hna, hnd2⟩
    cases a with
    | none =>
      rw [List.filter_cons]
      simp only [Option.isNone_none, if_pos]
      rw [filter_isNone_nil_of_not_mem rest hna]
      have hc : (none :: rest).contains none = true := by
        simp [List.contains_cons]
      rw [hc, if_pos rfl]
    | some x =>
      rw [List.filter_cons]
      simp only [Option.isNone_some, Bool.false_eq_true, if_false]
      have hc : ((some x :: rest).contains none) = rest.contains none := by
        simp [List.contains_cons]
      rw [hc]
      exact ih hnd2

theorem blookup_keys_flat :
    ∀ (b : List (Option String × List Int)), (b.map Prod.fst).Nodup →
      (b.map Prod.fst).flatMap (fun k => (blookup b k).getD []) = b.flatMap (fun p => p.2) := by
  intro b
  induction b with
  | nil => intro _; rfl
  | cons p rest ih =>
    intro hnd
    rcases List.nodup_cons.mp hnd with ⟨hp, hnd2⟩
    simp only [List.map_cons, List.flatMap_cons]
    have h1 : blookup (p :: rest) p.1 = some p.2 := by
      simp only [blookup]
      rw [if_pos (beq_self_eq_true p.1)]
    rw [h1]
    have h2 : (rest.map Prod.fst).flatMap (fun k => (blookup (p :: rest) k).getD [])
        = (rest.map Prod.fst).flatMap (fun k => (blookup rest k).getD []) := by
      apply flatMap_congr_mem
      intro k hk
      have hne : (p.1 == k) = false := by
        rw [beq_eq_false_iff_ne]
        intro he
        exact hp (he ▸ hk)
      simp only [blookup]
      rw [if_neg (by simp [hne])]
    rw [h2, ih hnd2]
    rfl


theorem buildOutGo_cons (today : Int) (tasks : List (Int × Task)) (strategy : String)
    (step : Rat) (tid : Int) (rest : List Int) (cur : Rat) :
    buildOutGo today tasks strategy step (tid :: rest) cur
      = (⟨(alookupD tasks tid default).id, (alookupD tasks tid default).title,
          (alookupD tasks tid default).due_date, (alookupD tasks tid default).estimated_hours,
          (alookupD tasks tid default).importance, (alookupD tasks tid default).dependencies,
          pyRound2 cur,
          (base_score_and_label (alookupD tasks tid default) strategy
              (days_until today (parse_date (alookupD tasks tid default).due_date))).2
            ++ " Ordered by feasibility-aware schedule (can finish all tasks)."⟩ : Record)
        :: buildOutGo today tasks strategy step rest (max 0 (cur - step)) := rfl

theorem buildOutGo_length (today : Int) (tasks : List (Int × Task)) (strategy : String)
    (step : Rat) : ∀ (ids : List Int) (cur : Rat),
      (buildOutGo today tasks strategy step ids cur).length = ids.length := by
  intro ids
  induction ids with
  | nil => intro cur; rfl
  | cons tid rest ih =>
    intro cur
    rw [buildOutGo_cons, List.length_cons, List.length_cons, ih]

theorem buildOutGo_ids (today : Int) (tasks : List (Int × Task)) (strategy : String)
    (step : Rat) : ∀ (ids : List Int) (cur : Rat),
      (buildOutGo today tasks strategy step ids cur).map (fun r => r.id)
        = ids.map (fun tid => (alookupD tasks tid default).id) := by
  intro ids
  induction ids with
  | nil => intro cur; rfl
  | cons tid rest ih =>
    intro cur
    rw [buildOutGo_cons, List.map_cons, List.map_cons, ih]

theorem buildOutGo_fields (today : Int) (tasks : List (Int × Task)) (strategy : String)
    (step : Rat) : ∀ (ids : List Int) (cur : Rat) (r : Record),
      r ∈ buildOutGo today tasks strategy step ids cur →
      ∃ tid, tid ∈ ids
        ∧ r.id = (alookupD tasks tid default).id
        ∧ r.title = (alookupD tasks tid default).title
        ∧ r.due_date = (alookupD tasks tid default).due_date
        ∧ r.estimated_hours = (alookupD tasks tid default).estimated_hours
        ∧ r.importance = (alookupD tasks tid default).importance
        ∧ r.dependencies = (alookupD tasks tid default).dependencies := by
  intro ids
  induction ids with
  | nil => intro cur r h; cases h
  | cons tid rest ih =>
    intro cur r h
    rw [buildOutGo_cons] at h
    rcases List.mem_cons.mp h with rfl | h2
    · exact ⟨tid, List.mem_cons_self _ _, rfl, rfl, rfl, rfl, rfl, rfl⟩
    · rcases ih _ r h2 with ⟨tid2, htid2, hrest⟩
      exact ⟨tid2, List.mem_cons_of_mem _ htid2, hrest⟩

theorem fallbackPath_perm (today : Int) (tasks : List (Int × Task)) (strategy s : String)
    (cycles : List Int) (blocked : List (Int × Int)) :
    List.Perm (fallbackPath today tasks strategy s cycles blocked)
      (tasks.map (fun p =>
        (⟨p.2.id, p.2.title, p.2.due_date, p.2.estimated_hours, p.2.importance,
          p.2.dependencies,
          pyRound2 (score_task today p.2 blocked strategy (cycles.contains p.1)
            (earliest_dependent_due p.1 tasks)).1,
          (score_task today p.2 blocked strategy (cycles.contains p.1)
            (earliest_dependent_due p.1 tasks)).2⟩ : Record))) := by
  simp only [fallbackPath]
  by_cases h1 : s = "fastest_wins"
  · rw [if_pos h1]
    refine (List.Perm.map _ (sortS_perm _ _)).trans ?_
    rw [List.map_map]
    exact List.Perm.refl _
  · rw [if_neg h1]
    by_cases h2 : s = "high_impact"
    · rw [if_pos h2]
      refine (List.Perm.map _ (sortS_perm _ _)).trans ?_
      rw [List.map_map]
      exact List.Perm.refl _
    · rw [if_neg h2]
      refine (List.Perm.map _ (sortS_perm _ _)).trans ?_
      rw [List.map_map]
      exact List.Perm.refl _

theorem compute_feasible_perm (today : Int) (tasks : List (Int × Task)) (forder : List Int)
    (h : compute_feasible_order_if_possible today tasks = some forder) :
    List.Perm forder (tasks.map (fun p => p.2.id)) := by
  simp only [compute_feasible_order_if_possible] at h
  split at h
  · injection h with h
    subst h
    refine (List.Perm.append_right _ (List.Perm.map _ (sortS_perm _ _))).trans ?_
    rw [← List.map_append]
    have hfil : ((tasks.map (fun p => Enriched.mk p.2.id (parse_date p.2.due_date)
          (max 0 p.2.estimated_hours))).filter (fun e => e.due.isNone))
        = ((tasks.map (fun p => Enriched.mk p.2.id (parse_date p.2.due_date)
          (max 0 p.2.estimated_hours))).filter (fun e => !(e.due.isSome))) :=
      List.filter_congr (fun e _ => by cases hh : e.due <;> simp [hh])
    rw [hfil]
    refine (List.Perm.map _ (List.filter_append_perm _ _)).trans ?_
    rw [List.map_map]
    exact List.Perm.refl _
  · cases h


theorem foldl_append_perm {α β : Type} (f g : α → List β)
    (hfg : ∀ a, List.Perm (f a) (g a)) :
    ∀ (l : List α) (init : List β),
      List.Perm (l.foldl (fun acc k => acc ++ f k) init) (init ++ l.flatMap g) := by
  intro l
  induction l with
  | nil => intro init; simp
  | cons a rest ih =>
    intro init
    rw [List.foldl_cons, List.flatMap_cons]
    refine (ih (init ++ f a)).trans ?_
    rw [List.append_assoc]
    exact List.Perm.append_left init (List.Perm.append_right _ (hfg a))

theorem ordered_perm (tasks : List (Int × Task)) (blocked : List (Int × Int))
    (s : String) (forder : List Int) :
    List.Perm
      ((sortS (fun a b => optLtInt (parse_date a) (parse_date b))
          (((mkBuckets tasks forder).map Prod.fst).filter (fun k => k.isSome))
        ++ (if ((mkBuckets tasks forder).map Prod.fst).contains none then [none] else [])).foldl
        (fun acc key => acc ++
          (if s = "smart_balance" then
            sortS (smartBalanceLt tasks blocked) ((blookup (mkBuckets tasks forder) key).getD [])
          else if s = "deadline_driven" then
            sortS (deadlineDrivenLt tasks blocked)
              ((blookup (mkBuckets tasks forder) key).getD [])
          else (blookup (mkBuckets tasks forder) key).getD [])) [])
      forder := by
  rcases mkBuckets_spec tasks forder with ⟨hnd, hflat⟩
  have hstep : ∀ key, List.Perm
      (if s = "smart_balance" then
        sortS (smartBalanceLt tasks blocked) ((blookup (mkBuckets tasks forder) key).getD [])
      else if s = "deadline_driven" then
        sortS (deadlineDrivenLt tasks blocked) ((blookup (mkBuckets tasks forder) key).getD [])
      else (blookup (mkBuckets tasks forder) key).getD [])
      ((blookup (mkBuckets tasks forder) key).getD []) := by
    intro key
    by_cases h1 : s = "smart_balance"
    · rw [if_pos h1]
      exact sortS_perm _ _
    · rw [if_neg h1]
      by_cases h2 : s = "deadline_driven"
      · rw [if_pos h2]
        exact sortS_perm _ _
      · rw [if_neg h2]
  have hkperm : List.Perm
      (sortS (fun a b => optLtInt (parse_date a) (parse_date b))
          (((mkBuckets tasks forder).map Prod.fst).filter (fun k => k.isSome))
        ++ (if ((mkBuckets tasks forder).map Prod.fst).contains none then [none] else []))
      ((mkBuckets tasks forder).map Prod.fst) := by
    rw [← nodup_filter_isNone _ hnd]
    refine (List.Perm.append_right _ (sortS_perm _ _)).trans ?_
    have heq : ((mkBuckets tasks forder).map Prod.fst).filter (fun k => k.isNone)
        = ((mkBuckets tasks forder).map Prod.fst).filter (fun k => !(k.isSome)) :=
      List.filter_congr (fun k _ => by cases hh : k <;> simp [hh])
    rw [heq]
    exact List.filter_append_perm _ _
  refine ((foldl_append_perm _ _ hstep _ []).trans ?_)
  rw [List.nil_append]
  refine (List.Perm.flatMap_right _ hkperm).trans ?_
  rw [blookup_keys_flat _ hnd]
  exact hflat

theorem feasiblePath_spec (today : Int) (tasks : List (Int × Task)) (strategy s : String)
    (blocked : List (Int × Int)) (forder : List Int) (out : List Record)
    (h : feasiblePath today tasks strategy s blocked forder = .ok out) :
    ∃ ordered : List Int, List.Perm ordered forder
      ∧ out = build_output_from_order today tasks strategy ordered := by
  simp only [feasiblePath] at h
  split at h
  · cases h
  · injection h with h
    exact ⟨_, ordered_perm tasks blocked s forder, h.symm⟩


/-- C10 (amended): whenever `prioritize` succeeds on a raw task list of
length N, it outputs exactly N records, their ids are a permutation of
1..N, and each record's title, due_date, estimated_hours, importance and
dependencies equal the corresponding built task's fields; the original
unconditional claim fails because `prioritize` can raise instead of
producing output (see the counterexample). -/
theorem c10_output_complete (today : Int) (raw : List RawTask) (strategy : String)
    (out : List Record) (h : prioritize today raw strategy = .ok out) :
    ∃ tm, build_tasks raw = .ok tm
      ∧ out.length = raw.length
      ∧ List.Perm (out.map (fun r => r.id))
          ((List.range raw.length).map (fun n : Nat => 1 + (n : Int)))
      ∧ ∀ r ∈ out, ∃ t : Task, (r.id, t) ∈ tm
          ∧ r.title = t.title ∧ r.due_date = t.due_date
          ∧ r.estimated_hours = t.estimated_hours ∧ r.importance = t.importance
          ∧ r.dependencies = t.dependencies := by
  cases hb : build_tasks raw with
  | error e =>
    simp only [prioritize, bind, Except.bind, hb] at h
    exact Except.noConfusion h
  | ok tm =>
    simp only [prioritize, bind, Except.bind, hb] at h
    obtain ⟨hidmap, hids⟩ := buildTasksGo_spec raw 1 tm hb
    have hclen : tm.length = raw.length := by
      have hl := congrArg List.length hidmap
      simpa using hl
    have hfst : tm.map (fun p => p.2.id) = tm.map Prod.fst :=
      List.map_congr_left (fun q hq => hids q hq)
    split at h
    · rename_i forder heq
      by_cases hc : strToLower (pyOr strategy "smart_balance") = "smart_balance"
          ∨ strToLower (pyOr strategy "smart_balance") = "deadline_driven"
      · rw [if_pos hc] at heq
        have hforder : List.Perm forder (tm.map Prod.fst) := by
          refine (compute_feasible_perm today tm forder heq).trans ?_
          rw [hfst]
        rcases feasiblePath_spec today tm strategy _ _ forder out h with ⟨ordered, hop, hout⟩
        have hordmem : ∀ tid ∈ ordered, tid ∈ tm.map Prod.fst := by
          intro tid htid
          exact hforder.mem_iff.mp (hop.mem_iff.mp htid)
        have hid_look : ∀ tid ∈ ordered, (alookupD tm tid default).id = tid := by
          intro tid htid
          exact hids _ (alookupD_mem tm tid default (hordmem tid htid))
        refine ⟨tm, rfl, ?_, ?_, ?_⟩
        · rw [hout]
          simp only [build_output_from_order]
          rw [buildOutGo_length, hop.length_eq, hforder.length_eq, List.length_map, hclen]
        · rw [hout]
          simp only [build_output_from_order]
          rw [buildOutGo_ids, List.map_congr_left hid_look, List.map_id']
          refine (hop.trans hforder).trans ?_
          rw [hidmap]
        · intro r hr
          rw [hout] at hr
          simp only [build_output_from_order] at hr
          rcases buildOutGo_fields today tm strategy _ ordered 2.0 r hr with
            ⟨tid, htid, hid, hti, hdu, hes, him, hde⟩
          refine ⟨alookupD tm tid default, ?_, hti, hdu, hes, him, hde⟩
          rw [hid, hid_look tid htid]
          exact alookupD_mem tm tid default (hordmem tid htid)
      · rw [if_neg hc] at heq
        cases heq
    · injection h with h
      have hp := fallbackPath_perm today tm strategy
        (strToLower (pyOr strategy "smart_balance")) (detect_cycles tm) (blocked_counts tm)
      rw [h] at hp
      refine ⟨tm, rfl, ?_, ?_, ?_⟩
      · rw [hp.length_eq, List.length_map, hclen]
      · refine (hp.map (fun r => r.id)).trans ?_
        rw [List.map_map]
        show List.Perm (tm.map (fun p => p.2.id))
          ((List.range raw.length).map (fun n : Nat => 1 + (n : Int)))
        rw [hfst, hidmap]
      · intro r hr
        rcases List.mem_map.mp (hp.mem_iff.mp hr) with ⟨p, hpm, hpe⟩
        have hrid : r.id = p.2.id := by rw [← hpe]
        refine ⟨p.2, ?_, ?_, ?_, ?_, ?_, ?_⟩
        · rw [hrid, hids p hpm]
          exact hpm
        · rw [← hpe]
        · rw [← hpe]
        · rw [← hpe]
        · rw [← hpe]
        · rw [← hpe]


/-- C10 witness: the amended theorem applied to a concrete successful run. -/
theorem c10_output_complete_witness :
    prioritize today0 exRawOne "smart_balance" = .ok exOut1
      ∧ ∃ tm, build_tasks exRawOne = .ok tm
        ∧ exOut1.length = exRawOne.length
        ∧ List.Perm (exOut1.map (fun r => r.id))
            ((List.range exRawOne.length).map (fun n : Nat => 1 + (n : Int)))
        ∧ ∀ r ∈ exOut1, ∃ t : Task, (r.id, t) ∈ tm
            ∧ r.title = t.title ∧ r.due_date = t.due_date
            ∧ r.estimated_hours = t.estimated_hours ∧ r.importance = t.importance
            ∧ r.dependencies = t.dependencies :=
  ⟨by decide, c10_output_complete today0 exRawOne "smart_balance" exOut1 (by decide)⟩

/-- C10 counterexample: on two tasks whose due-date strings are one
parseable and one unparseable, `prioritize` with the default strategy
raises instead of outputting one record per input task. -/
theorem c10_prioritize_raises :
    prioritize today0 exRawCrash "smart_balance"
      = .error "TypeError: unorderable bucket keys" := by decide

end Scoring
